import Mathlib

/-!
# Verification of the world_weaver engine core

A shallow embedding, over `List Char` / `Nat`, of the core of the
`world_weaver` engine:

* `StreamFinder` (src/engine/src/game/stream_finder.rs) — the incremental
  stop-token scanner;
* the turn-output protocol codec (`TurnOutput::to_llm_format` and
  `TryFrom<OutputMessage> for TurnOutput` in src/engine/src/game.rs);
* the session engine's summarization trigger and commit
  (`Game::mk_summary_if_neccessary`, `Game::update`, `Game::try_new`);
* the save archive (src/engine/src/save_archive.rs), with the file modelled
  as a length plus a byte-valued function.

Strings are modelled as `List Char` (Rust iterates `.chars()`), bytes as
`Nat`.  Fallible operations return `Except`.
-/

namespace WW

/-! ## StreamFinder (src/engine/src/game/stream_finder.rs)

State and per-character transition of `StreamFinder`.  The Rust struct holds
`target: Vec<char>`, `current_pos: usize`, `stored_output: Vec<char>`.
`self.target[self.current_pos]` in Rust can only panic when the invariant
`current_pos < target.len()` is broken, which never happens; the embedding
uses `List.getD` with an arbitrary default for totality. -/

structure StreamFinder where
  target : List Char
  current_pos : Nat
  stored_output : List Char
deriving Repr, DecidableEq

inductive ProcessCharOutcome where
  | PrefixMatch
  | PrefixReMatch
  | Mismatch
  | FullMatch
deriving Repr, DecidableEq

inductive MatchResult where
  | Blocked
  | StopTokenMatched (pre_token_text post_token_text : List Char)
  | CheckedOutput (text : List Char)
deriving Repr, DecidableEq

/-- `StreamFinder::new` -/
def StreamFinder.new (target : List Char) : StreamFinder :=
  { target := target, current_pos := 0, stored_output := [] }

/-- `StreamFinder::process_char`: advance the match cursor on one character
and report the outcome. -/
def StreamFinder.process_char (sf : StreamFinder) (ch : Char) :
    ProcessCharOutcome × StreamFinder :=
  if ch = sf.target.getD sf.current_pos default then
    if sf.current_pos + 1 = sf.target.length then
      (.FullMatch, { sf with current_pos := sf.current_pos + 1 })
    else
      (.PrefixMatch, { sf with current_pos := sf.current_pos + 1 })
  else if ch = sf.target.getD 0 default then
    (.PrefixReMatch, { sf with current_pos := 1 })
  else
    (.Mismatch, { sf with current_pos := 0 })

/-- The loop body of `StreamFinder::process`: walks the input characters,
accumulating confirmed output in `outputChars` (the local `output_chars`
vector).  Returns `.inl (state, confirmed output)` when the input is
exhausted, `.inr (reset state, pre_token_text, post_token_text)` on a full
match. -/
def StreamFinder.processLoop (sf : StreamFinder) (outputChars : List Char) :
    List Char → (StreamFinder × List Char) ⊕ (StreamFinder × List Char × List Char)
  | [] => .inl (sf, outputChars)
  | ch :: rest =>
    match sf.process_char ch with
    | (.Mismatch, sf') =>
      if sf.stored_output.isEmpty then
        StreamFinder.processLoop { sf' with stored_output := sf.stored_output }
          (outputChars ++ [ch]) rest
      else
        StreamFinder.processLoop { sf' with stored_output := [] }
          (outputChars ++ sf.stored_output ++ [ch]) rest
    | (.PrefixMatch, sf') =>
      StreamFinder.processLoop { sf' with stored_output := sf.stored_output ++ [ch] }
        outputChars rest
    | (.PrefixReMatch, sf') =>
      StreamFinder.processLoop { sf' with stored_output := [ch] }
        (outputChars ++ sf.stored_output) rest
    | (.FullMatch, sf') =>
      .inr ({ sf' with current_pos := 0, stored_output := [] }, outputChars, rest)

/-- `StreamFinder::process`. -/
def StreamFinder.process (sf : StreamFinder) (input : List Char) :
    MatchResult × StreamFinder :=
  match sf.processLoop [] input with
  | .inl (sf', out) =>
    (if out.isEmpty then .Blocked else .CheckedOutput out, sf')
  | .inr (sf', pre, post) =>
    (.StopTokenMatched pre post, sf')

/-- Feed chunks to a `StreamFinder` in order, accumulating the texts of all
`CheckedOutput` results, until a `StopTokenMatched` is returned (this is how
`Game::send_to_llm` drives the finder: once the token matched, the finder is
no longer fed).  Returns `some (checked outputs, pre_token_text,
post_token_text, unfed chunks)` on a match, `none` if the chunks run out
without one. -/
def StreamFinder.runUntilMatch (sf : StreamFinder) (acc : List Char) :
    List (List Char) →
      Option (List Char × List Char × List Char × List (List Char))
  | [] => none
  | c :: cs =>
    match sf.process c with
    | (.StopTokenMatched pre post, _) => some (acc, pre, post, cs)
    | (.Blocked, sf') => StreamFinder.runUntilMatch sf' acc cs
    | (.CheckedOutput out, sf') => StreamFinder.runUntilMatch sf' (acc ++ out) cs

/-! ## Turn protocol codec (src/engine/src/game.rs)

`TurnOutput::to_llm_format` and `impl TryFrom<OutputMessage> for TurnOutput`.
Rust `str::split(pat)` cuts the string at every leftmost non-overlapping
occurrence of the pattern; `findSub` is the leftmost-occurrence search and
`splitOnStr` the split, written with explicit fuel (the fuel `s.length` is
always sufficient because every cut consumes at least one character). -/

/-- Position of the leftmost occurrence of `sep` in `s`. -/
def findSub (sep : List Char) : List Char → Option Nat
  | [] => if sep.isPrefixOf [] then some 0 else none
  | c :: rest =>
    if sep.isPrefixOf (c :: rest) then some 0
    else (findSub sep rest).map (· + 1)

def splitOnAux (sep : List Char) : Nat → List Char → List (List Char)
  | 0, s => [s]
  | fuel + 1, s =>
    match findSub sep s with
    | none => [s]
    | some i => s.take i :: splitOnAux sep fuel (s.drop (i + sep.length))

/-- Rust `str::split(sep)`, collected into a list (used with nonempty `sep`). -/
def splitOnStr (sep s : List Char) : List (List Char) :=
  splitOnAux sep s.length s

/-- Rust `str::trim`: strip leading and trailing whitespace. -/
def trimStr (s : List Char) : List Char :=
  ((s.dropWhile Char.isWhitespace).reverse.dropWhile Char.isWhitespace).reverse

/-- `N_PROPOSED_OPTIONS` (src/engine/src/lib.rs). -/
def N_PROPOSED_OPTIONS : Nat := 3

/-- `HIST_SIZE` (src/engine/src/lib.rs). -/
def HIST_SIZE : Nat := 8

def EOID : List Char := "<<<EOID>>>".toList
def EOIC : List Char := "<<<EOIC>>>".toList
def EOO : List Char := "<<<EOO>>>".toList
def EOS : List Char := "<<<EOS>>>".toList
def EOA : List Char := "<<<EOA>>>".toList

/-- `OutputMessage` (src/engine/src/llm.rs). -/
structure OutputMessage where
  input_tokens : Nat
  output_tokens : Nat
  text : List Char
deriving Repr, DecidableEq

/-- `TurnOutput` (src/engine/src/game.rs).  The Rust field
`proposed_next_actions: [String; N_PROPOSED_OPTIONS]` is modelled as a list;
its length being `N_PROPOSED_OPTIONS` is the array bound. -/
structure TurnOutput where
  text : List Char
  image_description : List Char
  image_caption : List Char
  secret_info : List Char
  proposed_next_actions : List (List Char)
  input_tokens : Nat
  output_tokens : Nat
deriving Repr, DecidableEq

/-- `TurnOutput::to_llm_format`. -/
def TurnOutput.to_llm_format (t : TurnOutput) : List Char :=
  t.image_description ++ "\n<<<EOID>>>\n".toList
    ++ t.image_caption ++ "\n<<<EOIC>>>\n".toList
    ++ t.text ++ "\n<<<EOO>>>\n".toList
    ++ t.secret_info ++ "\n<<<EOS>>>\n".toList
    ++ List.intercalate "\n<<<EOA>>>\n".toList t.proposed_next_actions

/-- The error kinds of `TryFrom<OutputMessage> for TurnOutput` (the Rust
errors are strings naming the missing delimiter / the action count). -/
inductive DecodeError where
  | noEOID
  | noEOIC
  | noEOO
  | noEOS
  | tooFewActions
deriving Repr, DecidableEq

/-- `impl TryFrom<OutputMessage> for TurnOutput`. -/
def TurnOutput.tryFrom (m : OutputMessage) : Except DecodeError TurnOutput :=
  match splitOnStr EOID m.text with
  | [image_description, tail1] =>
    match splitOnStr EOIC tail1 with
    | [image_caption, tail2] =>
      match splitOnStr EOO tail2 with
      | [output, tail3] =>
        match splitOnStr EOS tail3 with
        | [secret, tail4] =>
          let proposed_next_actions := (splitOnStr EOA tail4).map trimStr
          if N_PROPOSED_OPTIONS ≤ proposed_next_actions.length then
            .ok { image_description := trimStr image_description,
                  image_caption := trimStr image_caption,
                  text := trimStr output,
                  secret_info := trimStr secret,
                  proposed_next_actions :=
                    proposed_next_actions.take N_PROPOSED_OPTIONS,
                  input_tokens := m.input_tokens,
                  output_tokens := m.output_tokens }
          else .error .tooFewActions
        | _ => .error .noEOS
      | _ => .error .noEOO
    | _ => .error .noEOIC
  | _ => .error .noEOID

/-- A delimiter as it is inserted by `to_llm_format`: wrapped in newlines. -/
def NL (X : List Char) : List Char := '\n' :: (X ++ ['\n'])

/-- Decoder written after the specification text of the decode step: split on
each delimiter exactly once, left to right; a split that does not yield
exactly two parts fails with the kind naming that delimiter; the final
segment is split on the action delimiter, failing when fewer than
`N_PROPOSED_OPTIONS` segments result and keeping the first
`N_PROPOSED_OPTIONS` (trimmed) otherwise.  Compared against
`TurnOutput.tryFrom` (the source decoder). -/
def decodeSpec (m : OutputMessage) : Except DecodeError TurnOutput :=
  let p1 := splitOnStr EOID m.text
  if p1.length = 2 then
    let p2 := splitOnStr EOIC (p1.getD 1 [])
    if p2.length = 2 then
      let p3 := splitOnStr EOO (p2.getD 1 [])
      if p3.length = 2 then
        let p4 := splitOnStr EOS (p3.getD 1 [])
        if p4.length = 2 then
          let acts := splitOnStr EOA (p4.getD 1 [])
          if acts.length < N_PROPOSED_OPTIONS then .error .tooFewActions
          else
            .ok { image_description := trimStr (p1.getD 0 []),
                  image_caption := trimStr (p2.getD 0 []),
                  text := trimStr (p3.getD 0 []),
                  secret_info := trimStr (p4.getD 0 []),
                  proposed_next_actions :=
                    (acts.map trimStr).take N_PROPOSED_OPTIONS,
                  input_tokens := m.input_tokens,
                  output_tokens := m.output_tokens }
        else .error .noEOS
      else .error .noEOO
    else .error .noEOIC
  else .error .noEOID

/-! ## Session engine (src/engine/src/game.rs)

`Game` also carries the boxed LLM and image-model clients; those are external
collaborators and the model keeps only `GameData`.  `NonEmpty<T>` is modelled
as head-and-tail pairs. -/

/-- `SUMMARY_INTERVAL` (src/engine/src/game.rs). -/
def SUMMARY_INTERVAL : Nat := 8

/-- `Summary` (src/engine/src/game.rs). -/
structure Summary where
  content : List Char
  bday : Nat
deriving Repr, DecidableEq

/-- `TurnInput` (src/engine/src/game.rs). -/
structure TurnInput where
  player_action : List Char
  gm_instruction : List Char
deriving Repr, DecidableEq

/-- `TurnData` (src/engine/src/game.rs). -/
structure TurnData where
  summary_before_input : Option Nat
  input : TurnInput
  output : TurnOutput
  image_ids : Nat × List Nat
  image_captions : List Char × List (List Char)
deriving Repr, DecidableEq

/-- `WorldDescription` (src/engine/src/game.rs); the `BTreeMap` of character
descriptions is modelled as an association list. -/
structure WorldDescription where
  name : List Char
  main_description : List Char
  pc_descriptions : List (List Char × List Char)
  init_action : List Char
deriving Repr, DecidableEq

/-- `BTreeMap::contains_key`. -/
def containsKey (m : List (List Char × List Char)) (k : List Char) : Bool :=
  m.any (fun kv => kv.1 == k)

/-- `GameData` (src/engine/src/game.rs). -/
structure GameData where
  world_description : WorldDescription
  pc : List Char
  summaries : List Summary
  turn_data : List TurnData
deriving Repr, DecidableEq

/-- `Game::try_new`: fails unless the player character is a key of the world
description's character map; otherwise starts with empty summaries and empty
turn history. -/
def Game.try_new (world_description : WorldDescription)
    (player_character : List Char) : Except (List Char) GameData :=
  if containsKey world_description.pc_descriptions player_character then
    .ok { world_description := world_description, pc := player_character,
          summaries := [], turn_data := [] }
  else
    .error ("Invalid character name: ".toList ++ player_character)

/-- The `should_summarize` decision of `Game::mk_summary_if_neccessary`:
`current_turn = turn_data.len() as isize - 1`, compared against the latest
summary's bday (or 8 outright when none exists), in signed arithmetic. -/
def mkSummaryDecision (data : GameData) : Bool :=
  let current_turn : Int := (data.turn_data.length : Int) - 1
  match data.summaries.getLast? with
  | some s => decide (current_turn - (s.bday : Int) ≥ (SUMMARY_INTERVAL : Int))
  | none => decide (current_turn ≥ (SUMMARY_INTERVAL : Int))

/-- The arguments `Game::mk_summary_if_neccessary` hands to
`create_new_summary` when it decides to summarize: the latest summary's text
(empty when none) and the slice `turn_data[tdl - SUMMARY_INTERVAL..tdl]`.
The Rust slice indexing would panic for `tdl < SUMMARY_INTERVAL`, which the
trigger condition rules out; `List.drop` is total. -/
def mkSummaryArgs (data : GameData) :
    Option (List Char × List TurnData) :=
  if mkSummaryDecision data then
    some ((data.summaries.getLast?.map Summary.content).getD [],
      data.turn_data.drop (data.turn_data.length - SUMMARY_INTERVAL))
  else
    none

/-- `Game::update`: append the turn; when the caller supplies a summary text,
append a `Summary` with `bday = turn_data.len() - 1` (the index of the turn
just pushed).  The Rust function returns `Result<()>` but never errs. -/
def Game.update (data : GameData) (input : TurnInput) (output : TurnOutput)
    (image_ids : Nat × List Nat)
    (image_captions : List Char × List (List Char))
    (summary : Option (List Char)) : GameData :=
  let turn_data : TurnData :=
    { summary_before_input :=
        if data.summaries.length > 0 then some (data.summaries.length - 1)
        else none,
      input := input, output := output, image_ids := image_ids,
      image_captions := image_captions }
  let data' := { data with turn_data := data.turn_data ++ [turn_data] }
  match summary with
  | some content =>
    { data' with summaries :=
        data'.summaries ++ [{ content := content,
                              bday := data'.turn_data.length - 1 }] }
  | none => data'

/-! ### Stream termination after the final event (src/engine/src/game.rs)

After `MessageComplete`, both `Game::send_to_llm` and `create_new_summary`
poll the response stream exactly once more.  The outcome of that poll is a
transport error, end-of-stream (`Ok(None)`), or a further fragment. -/

inductive ResponseFragment where
  | TextDelta (s : List Char)
  | MessageComplete (m : OutputMessage)
deriving Repr, DecidableEq

/-- The poll `stream.try_next().await` after the `MessageComplete` event. -/
abbrev PollResult : Type := Except (List Char) (Option ResponseFragment)

/-- What `Game::send_to_llm` does with that poll: `stream.try_next().await?;`
— the `?` propagates a transport error, and any yielded value is discarded. -/
def finishTurnPoll (p : PollResult) : Except (List Char) Unit :=
  match p with
  | .error e => .error e
  | .ok _ => .ok ()

/-- What `create_new_summary` does with that poll:
`ensure!(matches!(stream.try_next().await, Ok(None)))`. -/
def finishSummaryPoll (p : PollResult) : Except (List Char) Unit :=
  match p with
  | .ok none => .ok ()
  | _ => .error "stream yielded after MessageComplete".toList

/-! ## SaveArchive (src/engine/src/save_archive.rs)

The file is modelled as a size plus a byte-valued function (bytes as `Nat`).
Every archive operation seeks to an absolute position before reading or
writing, so no cursor is modelled; OS-level I/O errors are environmental and
not modelled.  `u64` header fields are `Nat`; the little-endian byte
serialization of the header (`transmute` of the `repr(C)` struct) and of the
image index (the external `serde_binary` collaborator, modelled as a u64
length prefix followed by `(offset, length)` u64 pairs) cuts values off at
2^64, so round-trip facts carry explicit 2^64 bounds. -/

structure FileM where
  size : Nat
  data : Nat → Nat

def FileM.empty : FileM := ⟨0, fun _ => 0⟩

/-- `File::set_len`: truncate, or extend with zeros. -/
def FileM.setLen (f : FileM) (n : Nat) : FileM :=
  ⟨n, fun i => if i < f.size then f.data i else 0⟩

/-- `write_all` at absolute position `pos` (after the corresponding seek). -/
def FileM.write (f : FileM) (pos : Nat) (bs : List Nat) : FileM :=
  ⟨max f.size (pos + bs.length),
   fun i =>
     if pos ≤ i ∧ i < pos + bs.length then bs.getD (i - pos) 0
     else if i < f.size then f.data i else 0⟩

/-- `read_exact` of `n` bytes at absolute position `pos`. -/
def FileM.read (f : FileM) (pos n : Nat) : Except (List Char) (List Nat) :=
  if pos + n ≤ f.size then
    .ok ((List.range n).map (fun j => f.data (pos + j)))
  else
    .error "read_exact: unexpected end of file".toList

/-- `b"WOWEAVER"`. -/
def MAGIC : List Nat := [87, 79, 87, 69, 65, 86, 69, 82]

structure SaveHeader where
  magic : List Nat
  version : Nat
  game_data_region_size : Nat
  game_data_size : Nat
  game_data_region_offset : Nat
  index_offset : Nat
  index_size : Nat
deriving Repr, DecidableEq

/-- `size_of::<SaveHeader>()`: 8 magic bytes plus six u64 fields. -/
def HEADER_SIZE : Nat := 56

/-- `SaveArchive::DEFAULT_GAME_DATA_SIZE` (20 MiB). -/
def DEFAULT_GAME_DATA_SIZE : Nat := 20 * 1024 * 1024

def U64_BOUND : Nat := 18446744073709551616

/-- Little-endian bytes of a u64 (the value mod 2^64). -/
def le64 (n : Nat) : List Nat :=
  [n % 256, n / 256 % 256, n / 65536 % 256, n / 16777216 % 256,
   n / 4294967296 % 256, n / 1099511627776 % 256,
   n / 281474976710656 % 256, n / 72057594037927936 % 256]

/-- Little-endian decoding of a byte list. -/
def le64dec (bs : List Nat) : Nat :=
  bs.foldr (fun b acc => acc * 256 + b) 0

/-- The bytes `write_header` puts at offset 0: the `repr(C)` struct laid out
as magic then the six u64 fields, little-endian. -/
def headerBytes (h : SaveHeader) : List Nat :=
  h.magic ++ le64 h.version ++ le64 h.game_data_region_size ++
    le64 h.game_data_size ++ le64 h.game_data_region_offset ++
    le64 h.index_offset ++ le64 h.index_size

/-- `read_header`'s view of 56 bytes. -/
def parseHeader (bs : List Nat) : SaveHeader :=
  { magic := bs.take 8,
    version := le64dec ((bs.drop 8).take 8),
    game_data_region_size := le64dec ((bs.drop 16).take 8),
    game_data_size := le64dec ((bs.drop 24).take 8),
    game_data_region_offset := le64dec ((bs.drop 32).take 8),
    index_offset := le64dec ((bs.drop 40).take 8),
    index_size := le64dec ((bs.drop 48).take 8) }

/-- `serde_binary::to_vec` of the `Vec<(u64, u64)>` image index. -/
def serializeIndex (idx : List (Nat × Nat)) : List Nat :=
  le64 idx.length ++ (idx.map (fun p => le64 p.1 ++ le64 p.2)).flatten

/-- Pair-by-pair decoding of a serialized index body. -/
def decPairs : Nat → List Nat → Option (List (Nat × Nat))
  | 0, bs => if bs = [] then some [] else none
  | n + 1, bs =>
    (decPairs n (bs.drop 16)).map
      (fun rest => (le64dec (bs.take 8), le64dec ((bs.drop 8).take 8)) :: rest)

/-- `serde_binary::from_slice` for the image index. -/
def deserializeIndex (bs : List Nat) : Option (List (Nat × Nat)) :=
  decPairs (le64dec (bs.take 8)) (bs.drop 8)

structure SaveArchive where
  file : FileM
  header : SaveHeader
  image_index : List (Nat × Nat)

/-- `write_header`: seek to 0, write the struct bytes. -/
def write_header (f : FileM) (h : SaveHeader) : FileM :=
  f.write 0 (headerBytes h)

/-- The header `SaveArchive::create` builds. -/
def createHeader : SaveHeader :=
  { magic := MAGIC, version := 1,
    game_data_region_size := DEFAULT_GAME_DATA_SIZE,
    game_data_region_offset := HEADER_SIZE,
    index_offset := HEADER_SIZE + DEFAULT_GAME_DATA_SIZE,
    index_size := 0, game_data_size := 0 }

/-- `SaveArchive::create` (on a fresh, truncated file). -/
def SaveArchive.create : SaveArchive :=
  { file := write_header (FileM.empty.setLen createHeader.index_offset)
      createHeader,
    header := createHeader, image_index := [] }

/-- `SaveArchive::open`. -/
def SaveArchive.open (file : FileM) : Except (List Char) SaveArchive := do
  let hbytes ← file.read 0 HEADER_SIZE
  let header := parseHeader hbytes
  if header.magic = MAGIC then
    let ibytes ← file.read header.index_offset header.index_size
    let image_index ←
      if header.index_size > 0 then
        match deserializeIndex ibytes with
        | some idx => Except.ok idx
        | none => Except.error "could not deserialize image index".toList
      else Except.ok []
    .ok { file := file, header := header, image_index := image_index }
  else
    .error "Invalid save file".toList

/-- `SaveArchive::write_game_data`, taking the serialized JSON bytes (the
`serde_json` serialization is external).  Fails — before touching the file —
unless the byte length is strictly below the region size. -/
def SaveArchive.write_game_data (a : SaveArchive) (json_bytes : List Nat) :
    Except (List Char) Unit × SaveArchive :=
  if json_bytes.length < a.header.game_data_region_size then
    let f := a.file.write a.header.game_data_region_offset json_bytes
    let header := { a.header with game_data_size := json_bytes.length }
    let f := write_header f header
    (.ok (), { a with file := f, header := header })
  else
    (.error "The json region in the save archive is not large enough, it needs to be grown".toList,
     a)

/-- `SaveArchive::append_image`: truncate the index tail, append the image
bytes, re-serialize and append the index, rewrite the header.  Returns `()`
(`Result<()>` in Rust) — not the assigned id. -/
def SaveArchive.append_image (a : SaveArchive) (image_bytes : List Nat) :
    Unit × SaveArchive :=
  let offset := a.header.index_offset
  let length := image_bytes.length
  let f := a.file.setLen offset
  let f := f.write offset image_bytes
  let image_index := a.image_index ++ [(offset, length)]
  let header := { a.header with index_offset := a.header.index_offset + length }
  let serialized := serializeIndex image_index
  let f := f.write (offset + length) serialized
  let header := { header with index_size := serialized.length }
  let f := write_header f header
  ((), { file := f, header := header, image_index := image_index })

/-- `SaveArchive::read_game_data` (returns the stored JSON bytes). -/
def SaveArchive.read_game_data (a : SaveArchive) :
    Except (List Char) (List Nat) :=
  if a.header.game_data_size > 0 then
    a.file.read a.header.game_data_region_offset a.header.game_data_size
  else
    .error "No game data".toList

/-- `SaveArchive::read_image`. -/
def SaveArchive.read_image (a : SaveArchive) (id : Nat) :
    Except (List Char) (List Nat) :=
  match a.image_index.get? id with
  | none => .error "Image ID not found".toList
  | some (offset, length) => a.file.read offset length

/-! ### Archive histories: sequences of appends and close/reopen cycles -/

inductive ArchiveEvent where
  | append (bytes : List Nat)
  | reopen
deriving Repr, DecidableEq

def runEvents (a : SaveArchive) :
    List ArchiveEvent → Except (List Char) SaveArchive
  | [] => .ok a
  | .append bs :: evs => runEvents (a.append_image bs).2 evs
  | .reopen :: evs =>
    match SaveArchive.open a.file with
    | .ok a' => runEvents a' evs
    | .error e => .error e

def appendsOf : List ArchiveEvent → List (List Nat)
  | [] => []
  | .append bs :: evs => bs :: appendsOf evs
  | .reopen :: evs => appendsOf evs

/-- Start of the image region. -/
def baseOffset : Nat := HEADER_SIZE + DEFAULT_GAME_DATA_SIZE

/-- The image index entries for images packed from `off` on. -/
def indexFrom (off : Nat) : List (List Nat) → List (Nat × Nat)
  | [] => []
  | b :: rest => (off, b.length) :: indexFrom (off + b.length) rest

/-- Total byte length of a list of images. -/
def totalLen (imgs : List (List Nat)) : Nat := (imgs.map List.length).sum

/-- All u64 header and index fields of the history stay below 2^64. -/
def sizeOk (evs : List ArchiveEvent) : Prop :=
  baseOffset + totalLen (appendsOf evs) + 8 + 16 * (appendsOf evs).length <
    U64_BOUND

/-- Verification invariant tying an archive state to the list of images
appended so far: header fields as `create` wrote them (game data untouched),
images packed back-to-back from `baseOffset`, the index describing exactly
those images, the file holding header, images and serialized index, and all
u64 quantities in range. -/
def ArchiveInv (a : SaveArchive) (imgs : List (List Nat)) : Prop :=
  a.header.magic = MAGIC ∧
  a.header.version = 1 ∧
  a.header.game_data_region_size = DEFAULT_GAME_DATA_SIZE ∧
  a.header.game_data_size = 0 ∧
  a.header.game_data_region_offset = HEADER_SIZE ∧
  a.header.index_offset = baseOffset + totalLen imgs ∧
  a.image_index = indexFrom baseOffset imgs ∧
  ((a.image_index = [] ∧ a.header.index_size = 0) ∨
    (0 < a.header.index_size ∧
     a.header.index_size = (serializeIndex a.image_index).length ∧
     a.file.read a.header.index_offset a.header.index_size =
       .ok (serializeIndex a.image_index))) ∧
  a.file.size = a.header.index_offset + a.header.index_size ∧
  a.file.read 0 HEADER_SIZE = .ok (headerBytes a.header) ∧
  (∀ i, i < imgs.length →
    a.file.read (baseOffset + totalLen (imgs.take i))
      (imgs.getD i []).length = .ok (imgs.getD i [])) ∧
  a.header.index_offset + a.header.index_size < U64_BOUND

/-! ### Example fixtures (used by witnesses and counterexamples) -/

def exInput : TurnInput := { player_action := [], gm_instruction := [] }

def exOutput : TurnOutput :=
  { text := [], image_description := [], image_caption := [],
    secret_info := [], proposed_next_actions := [[], [], []],
    input_tokens := 0, output_tokens := 0 }

def exTurn : TurnData :=
  { summary_before_input := none, input := exInput, output := exOutput,
    image_ids := (0, []), image_captions := ([], []) }

def exWorld : WorldDescription :=
  { name := [], main_description := [],
    pc_descriptions := [(['A'], ['d'])], init_action := [] }

/-- Eight committed turns, no summary yet. -/
def exData8 : GameData :=
  { world_description := exWorld, pc := ['A'], summaries := [],
    turn_data := List.replicate 8 exTurn }

/-- Nine committed turns, no summary yet. -/
def exData9 : GameData :=
  { world_description := exWorld, pc := ['A'], summaries := [],
    turn_data := List.replicate 9 exTurn }

/-! ### Single-step rewriting lemmas for `processLoop` -/

lemma processLoop_cons_full {T : List Char} {p : Nat} {b acc : List Char}
    {ch : Char} {s' : List Char}
    (hch : ch = T.getD p default) (hfull : p + 1 = T.length) :
    StreamFinder.processLoop ⟨T, p, b⟩ acc (ch :: s') =
      .inr (⟨T, 0, []⟩, acc, s') := by
  simp only [StreamFinder.processLoop, StreamFinder.process_char, ← hch,
    hfull, eq_self_iff_true, if_true]

lemma processLoop_cons_extend {T : List Char} {p : Nat} {b acc : List Char}
    {ch : Char} {s' : List Char}
    (hch : ch = T.getD p default) (hfull : p + 1 ≠ T.length) :
    StreamFinder.processLoop ⟨T, p, b⟩ acc (ch :: s') =
      StreamFinder.processLoop ⟨T, p + 1, b ++ [ch]⟩ acc s' := by
  simp only [StreamFinder.processLoop, StreamFinder.process_char, ← hch,
    eq_self_iff_true, if_true, if_neg hfull]

lemma processLoop_cons_rematch {T : List Char} {p : Nat} {b acc : List Char}
    {ch : Char} {s' : List Char}
    (hch : ch ≠ T.getD p default) (h0 : ch = T.getD 0 default) :
    StreamFinder.processLoop ⟨T, p, b⟩ acc (ch :: s') =
      StreamFinder.processLoop ⟨T, 1, [ch]⟩ (acc ++ b) s' := by
  simp only [StreamFinder.processLoop, StreamFinder.process_char,
    if_neg hch, ← h0, eq_self_iff_true, if_true]

lemma processLoop_cons_mismatch {T : List Char} {p : Nat} {b acc : List Char}
    {ch : Char} {s' : List Char}
    (hch : ch ≠ T.getD p default) (h0 : ch ≠ T.getD 0 default) :
    StreamFinder.processLoop ⟨T, p, b⟩ acc (ch :: s') =
      StreamFinder.processLoop ⟨T, 0, []⟩ (acc ++ b ++ [ch]) s' := by
  simp only [StreamFinder.processLoop, StreamFinder.process_char,
    if_neg hch, if_neg h0]
  rcases hb : b.isEmpty
  · simp only [Bool.false_eq_true, if_false]
  · have hb' : b = [] := List.isEmpty_iff.mp hb
    simp [hb']

/-! ### Accumulator and chunking lemmas -/

/-- Output accumulated so far is a passive left prefix of everything
`processLoop` later reports. -/
lemma processLoop_acc (a : List Char) :
    ∀ (xs : List Char) (sf : StreamFinder) (acc : List Char),
      sf.processLoop (a ++ acc) xs =
        match sf.processLoop acc xs with
        | .inl (sf', out) => .inl (sf', a ++ out)
        | .inr (sf', pre, post) => .inr (sf', a ++ pre, post) := by
  intro xs
  induction xs with
  | nil => intro sf acc; rfl
  | cons ch rest ih =>
    intro sf acc
    simp only [StreamFinder.processLoop]
    split
    · -- Mismatch
      split
      · simp only [List.append_assoc]; exact ih _ _
      · simp only [List.append_assoc]; exact ih _ _
    · -- PrefixMatch
      exact ih _ _
    · -- PrefixReMatch
      simp only [List.append_assoc]; exact ih _ _
    · -- FullMatch
      rfl

/-- `processLoop` over a concatenation runs the first part, then continues. -/
lemma processLoop_append :
    ∀ (xs ys : List Char) (sf : StreamFinder) (acc : List Char),
      sf.processLoop acc (xs ++ ys) =
        match sf.processLoop acc xs with
        | .inl (sf', out) => sf'.processLoop out ys
        | .inr (sf', pre, post) => .inr (sf', pre, post ++ ys) := by
  intro xs
  induction xs with
  | nil => intro ys sf acc; rfl
  | cons ch rest ih =>
    intro ys sf acc
    simp only [List.cons_append, StreamFinder.processLoop]
    split
    · split
      · exact ih _ _ _
      · exact ih _ _ _
    · exact ih _ _ _
    · exact ih _ _ _
    · rfl

/-- If the char-level loop over the join of the chunks finds the token, then
the chunk-level driver finds it, the `CheckedOutput` texts plus the chunk-local
`pre_token_text` concatenate to the char-level pre-text, and the chunk-local
`post_token_text` plus the unfed chunks make up the char-level post-text. -/
lemma runUntilMatch_of_processLoop :
    ∀ (cs : List (List Char)) (sf : StreamFinder) (acc : List Char)
      (sf'' : StreamFinder) (preA postA : List Char),
      sf.processLoop acc cs.flatten = .inr (sf'', preA, postA) →
      ∃ out ptk pok rest,
        sf.runUntilMatch acc cs = some (out, ptk, pok, rest) ∧
        out ++ ptk = preA ∧ pok ++ rest.flatten = postA := by
  intro cs
  induction cs with
  | nil =>
    intro sf acc sf'' preA postA h
    simp [StreamFinder.processLoop] at h
  | cons c cs ih =>
    intro sf acc sf'' preA postA h
    rw [List.flatten_cons, processLoop_append] at h
    have hacc := processLoop_acc acc c sf []
    rw [List.append_nil] at hacc
    rcases h0 : sf.processLoop [] c with ⟨sf1, out0⟩ | ⟨sf1, p0, q0⟩
    · rw [h0] at hacc
      rw [hacc] at h
      -- h : sf1.processLoop (acc ++ out0) cs.flatten = .inr (sf'', preA, postA)
      obtain ⟨out, ptk, pok, rest, hrun, hpre, hpost⟩ := ih sf1 (acc ++ out0) _ _ _ h
      refine ⟨out, ptk, pok, rest, ?_, hpre, hpost⟩
      rcases he : out0.isEmpty
      · have hp : sf.process c = (.CheckedOutput out0, sf1) := by
          rw [StreamFinder.process, h0]; simp [he]
        simp only [StreamFinder.runUntilMatch, hp]
        exact hrun
      · have he' : out0 = [] := List.isEmpty_iff.mp he
        have hp : sf.process c = (.Blocked, sf1) := by
          rw [StreamFinder.process, h0]; simp [he]
        simp only [StreamFinder.runUntilMatch, hp]
        rw [he', List.append_nil] at hrun
        exact hrun
    · rw [h0] at hacc
      rw [hacc] at h
      -- the match happened inside chunk c
      simp only [Sum.inr.injEq, Prod.mk.injEq] at h
      obtain ⟨-, hpre, hpost⟩ := h
      refine ⟨acc, p0, q0, cs, ?_, hpre, hpost⟩
      have hp : sf.process c = (.StopTokenMatched p0 q0, sf1) := by
        rw [StreamFinder.process, h0]
      simp only [StreamFinder.runUntilMatch, hp]

/-! ### Suffix bookkeeping helpers -/

lemma suffix_of_suffix_length_le {u v c : List Char} (hu : u <:+ c) (hv : v <:+ c)
    (h : u.length ≤ v.length) : u <:+ v := by
  have hud := List.suffix_iff_eq_drop.mp hu
  have hvd := List.suffix_iff_eq_drop.mp hv
  have huc : u.length ≤ c.length := hu.length_le
  have hvc : v.length ≤ c.length := hv.length_le
  have key : v.drop (v.length - u.length) = u := by
    nth_rewrite 2 [hvd]
    rw [List.drop_drop,
      show c.length - v.length + (v.length - u.length) = c.length - u.length by omega]
    exact hud.symm
  exact key ▸ List.drop_suffix _ _

/-- A nonempty prefix of the target that is a suffix of `consumed ++ [ch]`
loses its last character into `ch`: the rest is a suffix of `consumed`, and
the dropped character is the target character at position `k - 1`. -/
lemma take_suffix_snoc {T consumed : List Char} {ch : Char} {k : Nat}
    (hk1 : 1 ≤ k) (hk2 : k ≤ T.length)
    (h : T.take k <:+ consumed ++ [ch]) :
    T.take (k - 1) <:+ consumed ∧ T.getD (k - 1) default = ch := by
  obtain ⟨j, rfl⟩ : ∃ j, k = j + 1 := ⟨k - 1, by omega⟩
  obtain ⟨u, hu⟩ := h
  have hjlt : j < T.length := by omega
  have htk : T.take (j + 1) = T.take j ++ [T[j]] := by
    rw [List.take_succ, List.getElem?_eq_getElem hjlt]
    rfl
  rw [htk, ← List.append_assoc] at hu
  obtain ⟨h1, h2⟩ := List.append_inj' hu (by simp)
  have hj1 : j + 1 - 1 = j := by omega
  rw [hj1]
  refine ⟨⟨u, h1⟩, ?_⟩
  rw [List.getD_eq_getElem _ _ hjlt]
  simpa using h2

lemma getD_pos_mem_tail {T : List Char} {i : Nat} (h1 : 1 ≤ i) (h2 : i < T.length) :
    T.getD i default ∈ T.tail := by
  cases T with
  | nil => simp at h2
  | cons a l =>
    obtain ⟨j, rfl⟩ : ∃ j, i = j + 1 := ⟨i - 1, by omega⟩
    have hj : j < l.length := by
      simp only [List.length_cons] at h2; omega
    have : (a :: l).getD (j + 1) default = l.getD j default := rfl
    rw [List.tail_cons, this, List.getD_eq_getElem _ _ hj]
    exact List.getElem_mem hj

lemma prefix_eq_of_length_eq {u v S : List Char} (hu : u <+: S) (hv : v <+: S)
    (h : u.length = v.length) : u = v := by
  rw [List.prefix_iff_eq_take.mp hu, List.prefix_iff_eq_take.mp hv, h]

/-! ### Streaming correctness of the scanner

The invariant-based core: when the target `T` is nonempty and its first
character does not occur again inside it, `processLoop` run over the rest of
the input finds the unique occurrence of `T` and splits the text around it.

State invariant (`p` = match cursor, `consumed` = characters fed so far,
`acc` = characters flushed to output so far):
* the buffered tentative match is exactly `T.take p`;
* `acc ++ T.take p = consumed`;
* `p` dominates every nonempty prefix of `T` that is a suffix of `consumed`;
* the occurrence of `T` has not been passed yet. -/

lemma processLoop_inv (T pre post : List Char)
    (hT : 0 < T.length)
    (ht0 : T.getD 0 default ∉ T.tail)
    (huniq : ∀ i, T <+: (pre ++ T ++ post).drop i → i = pre.length) :
    ∀ (s : List Char) (p : Nat) (acc consumed : List Char),
      p < T.length →
      acc ++ T.take p = consumed →
      (∀ k, 0 < k → k ≤ T.length → T.take k <:+ consumed → k ≤ p) →
      consumed ++ s = pre ++ T ++ post →
      consumed.length < pre.length + T.length →
      StreamFinder.processLoop ⟨T, p, T.take p⟩ acc s =
        .inr (⟨T, 0, []⟩, pre, post) := by
  intro s
  induction s with
  | nil =>
    intro p acc consumed hp hI1 hI2 hS hlen
    exfalso
    have := congrArg List.length hS
    simp only [List.length_append, List.append_nil] at this
    omega
  | cons ch s' ih =>
    intro p acc consumed hp hI1 hI2 hS hlen
    by_cases hch : ch = T.getD p default
    · have hchg : ch = T[p] := by rwa [List.getD_eq_getElem _ _ hp] at hch
      have htks : T.take (p + 1) = T.take p ++ [ch] := by
        rw [List.take_succ, List.getElem?_eq_getElem hp, hchg]
        rfl
      have hI1' : acc ++ T.take (p + 1) = consumed ++ [ch] := by
        rw [htks, ← List.append_assoc, hI1]
      by_cases hfull : p + 1 = T.length
      · -- the token completes on this character
        rw [processLoop_cons_full hch hfull]
        have htkT : T.take (p + 1) = T := by rw [hfull, List.take_length]
        have haccT : acc ++ T = consumed ++ [ch] := by rw [← htkT, hI1']
        have hSa : acc ++ (T ++ s') = pre ++ (T ++ post) := by
          have : (consumed ++ [ch]) ++ s' = pre ++ T ++ post := by
            simpa [List.append_assoc] using hS
          rw [← haccT] at this
          simpa [List.append_assoc] using this
        have hdrop : (pre ++ T ++ post).drop acc.length = T ++ s' := by
          rw [List.append_assoc, ← hSa, List.drop_left]
        have hlacc : acc.length = pre.length :=
          huniq acc.length (by rw [hdrop]; exact List.prefix_append T s')
        obtain ⟨hacc, hTs⟩ := List.append_inj hSa hlacc
        have hs' : s' = post := List.append_cancel_left hTs
        rw [hacc, hs']
      · -- the cursor advances
        rw [processLoop_cons_extend hch hfull, ← htks]
        have hI2' : ∀ k, 0 < k → k ≤ T.length →
            T.take k <:+ consumed ++ [ch] → k ≤ p + 1 := by
          intro k hk0 hkT hsuf
          rcases Nat.lt_or_ge k 2 with hk2 | hk2
          · omega
          · obtain ⟨hrest, -⟩ := take_suffix_snoc (by omega) hkT hsuf
            have := hI2 (k - 1) (by omega) (by omega) hrest
            omega
        have hlen' : (consumed ++ [ch]).length < pre.length + T.length := by
          rcases Nat.lt_or_ge (consumed.length + 1) (pre.length + T.length) with h | h
          · simpa using h
          · exfalso
            have hle : consumed.length + 1 ≤ pre.length + T.length := by omega
            have heq : (consumed ++ [ch]).length = (pre ++ T).length := by
              simp; omega
            have hpr1 : consumed ++ [ch] <+: pre ++ T ++ post :=
              ⟨s', by simpa [List.append_assoc] using hS⟩
            have hpr2 : pre ++ T <+: pre ++ T ++ post := List.prefix_append _ _
            have hce : consumed ++ [ch] = pre ++ T :=
              prefix_eq_of_length_eq hpr1 hpr2 heq
            have hTsuf : T.take T.length <:+ consumed ++ [ch] := by
              rw [List.take_length]; exact ⟨pre, hce.symm⟩
            have := hI2' T.length hT (le_refl _) hTsuf
            omega
        exact ih (p + 1) acc (consumed ++ [ch]) (by omega) hI1' hI2'
          (by simpa [List.append_assoc] using hS) hlen'
    · by_cases h0 : ch = T.getD 0 default
      · -- restart on the first target character
        have hT2 : 1 < T.length := by
          rcases Nat.lt_or_ge 1 T.length with h | h
          · exact h
          · exfalso
            have hp0 : p = 0 := by omega
            rw [hp0] at hch
            exact hch h0
        have htk1 : T.take 1 = [ch] := by
          rw [List.take_succ, List.getElem?_eq_getElem (by omega : 0 < T.length)]
          rw [List.getD_eq_getElem _ _ (by omega : 0 < T.length)] at h0
          rw [← h0]
          rfl
        rw [processLoop_cons_rematch hch h0, ← htk1]
        have hI1' : (acc ++ T.take p) ++ T.take 1 = consumed ++ [ch] := by
          rw [htk1, hI1]
        have hI2' : ∀ k, 0 < k → k ≤ T.length →
            T.take k <:+ consumed ++ [ch] → k ≤ 1 := by
          intro k hk0 hkT hsuf
          rcases Nat.lt_or_ge k 2 with hk2 | hk2
          · omega
          · exfalso
            obtain ⟨-, hlast⟩ := take_suffix_snoc (by omega) hkT hsuf
            have hmem : T.getD (k - 1) default ∈ T.tail :=
              getD_pos_mem_tail (by omega) (by omega)
            rw [hlast, h0] at hmem
            exact ht0 hmem
        have hlen' : (consumed ++ [ch]).length < pre.length + T.length := by
          rcases Nat.lt_or_ge (consumed.length + 1) (pre.length + T.length) with h | h
          · simpa using h
          · exfalso
            have heq : (consumed ++ [ch]).length = (pre ++ T).length := by
              simp; omega
            have hpr1 : consumed ++ [ch] <+: pre ++ T ++ post :=
              ⟨s', by simpa [List.append_assoc] using hS⟩
            have hpr2 : pre ++ T <+: pre ++ T ++ post := List.prefix_append _ _
            have hce : consumed ++ [ch] = pre ++ T :=
              prefix_eq_of_length_eq hpr1 hpr2 heq
            have hTsuf : T.take T.length <:+ consumed ++ [ch] := by
              rw [List.take_length]; exact ⟨pre, hce.symm⟩
            have := hI2' T.length (by omega) (le_refl _) hTsuf
            omega
        exact ih 1 (acc ++ T.take p) (consumed ++ [ch]) hT2 hI1' hI2'
          (by simpa [List.append_assoc] using hS) hlen'
      · -- plain mismatch: flush everything
        rw [processLoop_cons_mismatch hch h0]
        have hI2' : ∀ k, 0 < k → k ≤ T.length →
            T.take k <:+ consumed ++ [ch] → False := by
          intro k hk0 hkT hsuf
          obtain ⟨hrest, hlast⟩ := take_suffix_snoc (by omega) hkT hsuf
          rcases Nat.lt_or_ge k 2 with hk2 | hk2
          · -- k = 1: the last character would be the first target character
            have hk1 : k = 1 := by omega
            rw [hk1] at hlast
            exact h0 hlast.symm
          · have hkp := hI2 (k - 1) (by omega) (by omega) hrest
            rcases Nat.lt_or_ge (k - 1) p with hlt | hge
            · -- a shorter prefix-suffix buried strictly inside the buffer:
              -- forces the first target character to recur inside the target
              have hsufp : T.take p <:+ consumed := ⟨acc, hI1⟩
              have hlen1 : (T.take (k - 1)).length = k - 1 := by
                simp; omega
              have hlenp : (T.take p).length = p := by
                simp; omega
              have hss : T.take (k - 1) <:+ T.take p :=
                suffix_of_suffix_length_le hrest hsufp (by omega)
              obtain ⟨w, hw⟩ := hss
              have hwlen : w.length = p - (k - 1) := by
                have := congrArg List.length hw
                simp only [List.length_append] at this
                omega
              have hwpos : 1 ≤ w.length := by omega
              have hwlt : w.length < T.length := by omega
              have hq : T[w.length]? = T[0]? := by
                have e1 : (T.take p)[w.length]? = (T.take (k - 1))[0]? := by
                  rw [← hw, List.getElem?_append_right (Nat.le_refl _), Nat.sub_self]
                rw [List.getElem?_take, if_pos (by omega),
                  List.getElem?_take, if_pos (by omega)] at e1
                exact e1
              have hmem : T.getD w.length default ∈ T.tail :=
                getD_pos_mem_tail hwpos hwlt
              rw [List.getD_eq_getElem?_getD, hq, ← List.getD_eq_getElem?_getD] at hmem
              exact ht0 hmem
            · -- the buffer itself would extend the match
              have hkp' : k - 1 = p := by omega
              rw [hkp'] at hlast
              exact hch hlast.symm
        have hlen' : (consumed ++ [ch]).length < pre.length + T.length := by
          rcases Nat.lt_or_ge (consumed.length + 1) (pre.length + T.length) with h | h
          · simpa using h
          · exfalso
            have heq : (consumed ++ [ch]).length = (pre ++ T).length := by
              simp; omega
            have hpr1 : consumed ++ [ch] <+: pre ++ T ++ post :=
              ⟨s', by simpa [List.append_assoc] using hS⟩
            have hpr2 : pre ++ T <+: pre ++ T ++ post := List.prefix_append _ _
            have hce : consumed ++ [ch] = pre ++ T :=
              prefix_eq_of_length_eq hpr1 hpr2 heq
            have hTsuf : T.take T.length <:+ consumed ++ [ch] := by
              rw [List.take_length]; exact ⟨pre, hce.symm⟩
            exact hI2' T.length hT (le_refl _) hTsuf
        exact ih 0 (acc ++ T.take p ++ [ch]) (consumed ++ [ch]) hT
          (by simp only [List.take_zero, List.append_nil]; rw [hI1])
          (fun k hk0 hkT hsuf => (hI2' k hk0 hkT hsuf).elim)
          (by simpa [List.append_assoc] using hS) hlen'

/-- C1, amended: for a target token whose first character occurs only at
position 0, any chunking of an input containing exactly one occurrence of the
token, fed to `StreamFinder::process` until it reports a match, yields
`CheckedOutput` texts plus `pre_token_text` concatenating to the prefix
before the token, while `post_token_text` followed by the unfed remainder is
the suffix after it. -/
theorem stream_finder_process_correct
    (T pre post : List Char) (cs : List (List Char))
    (hT : T ≠ [])
    (ht0 : T.getD 0 default ∉ T.tail)
    (hjoin : cs.flatten = pre ++ T ++ post)
    (huniq : ∀ i < (pre ++ T ++ post).length,
        T <+: (pre ++ T ++ post).drop i → i = pre.length) :
    ∃ out ptk pok rest,
      (StreamFinder.new T).runUntilMatch [] cs = some (out, ptk, pok, rest) ∧
      out ++ ptk = pre ∧ pok ++ rest.flatten = post := by
  have hT' : 0 < T.length := List.length_pos.mpr hT
  have huniq' : ∀ i, T <+: (pre ++ T ++ post).drop i → i = pre.length := by
    intro i hi
    by_cases h : i < (pre ++ T ++ post).length
    · exact huniq i h hi
    · exfalso
      push_neg at h
      rw [List.drop_eq_nil_of_le h] at hi
      have := hi.length_le
      simp only [List.length_nil] at this
      omega
  have hmain := processLoop_inv T pre post hT' ht0 huniq' cs.flatten 0 [] []
    hT' (by simp)
    (fun k hk0 hkT hsuf => by
      have hl := hsuf.length_le
      simp only [List.length_take, List.length_nil] at hl
      omega)
    (by simpa using hjoin) (by simp; omega)
  exact runUntilMatch_of_processLoop cs (StreamFinder.new T) [] _ pre post hmain

/-- Witness for `stream_finder_process_correct`: target `"X:"`, input
`"aX:bc"` chunked as `["aX", ":bc"]`. -/
theorem stream_finder_process_correct_witness :
    ∃ out ptk pok rest,
      (StreamFinder.new "X:".toList).runUntilMatch []
        ["aX".toList, ":bc".toList] = some (out, ptk, pok, rest) ∧
      out ++ ptk = "a".toList ∧ pok ++ rest.flatten = "bc".toList :=
  stream_finder_process_correct "X:".toList "a".toList "bc".toList
    ["aX".toList, ":bc".toList] (by decide) (by decide) (by decide) (by decide)

/-- C1, counterexample to the claim as stated: target `"AAB"`, input `"AAAB"`
fed as a single chunk.  The input contains exactly one occurrence of the
target (at position 1, so the claimed pre/post split is `"A"` / `""`), yet
the scanner never reports `StopTokenMatched` — `process` returns
`CheckedOutput "AAAB"` — because the simplified restart rule only re-seeds a
length-1 match. -/
theorem c1_counterexample :
    ("AAAB".toList = "A".toList ++ "AAB".toList ++ ([] : List Char)) ∧
    (∀ i < ("AAAB".toList).length,
      "AAB".toList <+: ("AAAB".toList).drop i → i = ("A".toList).length) ∧
    (StreamFinder.new "AAB".toList).runUntilMatch [] ["AAAB".toList] = none ∧
    ((StreamFinder.new "AAB".toList).process "AAAB".toList).1 =
      MatchResult.CheckedOutput "AAAB".toList :=
  ⟨by decide, by decide, by decide, by decide⟩

/-! ### Splitting lemmas for the codec -/

lemma findSub_nil {sep : List Char} (hsep : sep ≠ []) : findSub sep [] = none := by
  simp only [findSub]
  rw [if_neg]
  intro hp
  exact hsep (List.prefix_nil.mp (List.isPrefixOf_iff_prefix.mp hp))

lemma findSub_none_iff {sep : List Char} (hsep : sep ≠ []) :
    ∀ s : List Char, findSub sep s = none ↔ ∀ i, ¬ sep <+: s.drop i := by
  intro s
  induction s with
  | nil =>
    rw [findSub_nil hsep]
    simp only [true_iff]
    intro i hp
    rw [List.drop_nil] at hp
    exact hsep (List.prefix_nil.mp hp)
  | cons c rest ih =>
    simp only [findSub]
    by_cases hp : sep.isPrefixOf (c :: rest) = true
    · rw [if_pos hp]
      constructor
      · intro h; exact absurd h (by simp)
      · intro h
        exact absurd (List.isPrefixOf_iff_prefix.mp hp) (by simpa using h 0)
    · rw [if_neg hp]
      constructor
      · intro h i
        cases i with
        | zero =>
          intro hpre
          exact hp (List.isPrefixOf_iff_prefix.mpr hpre)
        | succ j =>
          have := (ih.mp (by simpa using h)) j
          simpa using this
      · intro h
        have : findSub sep rest = none := ih.mpr (fun j => by
          have := h (j + 1); simpa using this)
        simp [this]

lemma splitOnAux_of_none {sep s : List Char} (h : findSub sep s = none) :
    ∀ fuel, splitOnAux sep fuel s = [s]
  | 0 => rfl
  | fuel + 1 => by simp [splitOnAux, h]

lemma findSub_first {sep : List Char} (hsep : sep ≠ []) :
    ∀ (a b : List Char),
      (∀ i, i < a.length → ¬ sep <+: (a ++ sep ++ b).drop i) →
      findSub sep (a ++ sep ++ b) = some a.length := by
  intro a
  induction a with
  | nil =>
    intro b _
    cases sep with
    | nil => exact absurd rfl hsep
    | cons c s' =>
      have hpre : (c :: s').isPrefixOf (c :: (s' ++ b)) = true := by
        rw [← List.cons_append]
        exact List.isPrefixOf_iff_prefix.mpr (List.prefix_append _ _)
      simp only [List.nil_append, List.length_nil, List.cons_append, findSub,
        List.append_eq]
      rw [if_pos hpre]
  | cons c a' ih =>
    intro b hno
    have h0 : ¬ sep <+: (c :: (a' ++ sep ++ b)) := by
      have := hno 0 (by simp)
      simpa using this
    have harg := ih b (fun i hi => by
      have := hno (i + 1) (by simpa using Nat.succ_lt_succ hi)
      simpa using this)
    simp only [List.cons_append, findSub, List.append_eq]
    rw [if_neg (fun hp => h0 (List.isPrefixOf_iff_prefix.mp hp))]
    rw [harg]
    rfl

/-- An occurrence of `sep` starting inside `x` either lies inside `x`
entirely, or straddles the junction, pinning both boundary characters
inside `sep`. -/
lemma prefix_drop_cases {sep x y : List Char} {i : Nat} (hi : i < x.length)
    (h : sep <+: (x ++ y).drop i) :
    sep <+: x.drop i ∨
    (∃ cx cy, x.getLast? = some cx ∧ cx ∈ sep ∧ y.head? = some cy ∧ cy ∈ sep) := by
  have hd : (x ++ y).drop i = x.drop i ++ y :=
    List.drop_append_of_le_length (by omega)
  rw [hd] at h
  rcases le_or_lt sep.length (x.length - i) with hfit | hspan
  · left
    have htk : sep = (x.drop i ++ y).take sep.length := List.prefix_iff_eq_take.mp h
    rw [List.take_append_of_le_length (by simp; omega)] at htk
    rw [htk]
    exact List.take_prefix _ _
  · right
    obtain ⟨w, hw⟩ := h
    have e1 : (x.drop i ++ y)[x.length - 1 - i]? = sep[x.length - 1 - i]? := by
      rw [← hw, List.getElem?_append_left (by omega)]
    rw [List.getElem?_append_left (by simp; omega), List.getElem?_drop,
      show i + (x.length - 1 - i) = x.length - 1 by omega,
      ← List.getLast?_eq_getElem?] at e1
    have e2 : (x.drop i ++ y)[x.length - i]? = sep[x.length - i]? := by
      rw [← hw, List.getElem?_append_left hspan]
    rw [List.getElem?_append_right (by simp : (x.drop i).length ≤ x.length - i)]
      at e2
    rw [show x.length - i - (x.drop i).length = 0 by simp,
      ← List.head?_eq_getElem?] at e2
    have hs1 : x.length - 1 - i < sep.length := by omega
    have hs2 : x.length - i < sep.length := hspan
    refine ⟨sep[x.length - 1 - i], sep[x.length - i],
      ?_, List.getElem_mem hs1, ?_, List.getElem_mem hs2⟩
    · rw [e1, List.getElem?_eq_getElem hs1]
    · rw [e2, List.getElem?_eq_getElem hs2]

/-- No occurrence of `sep` can straddle a junction guarded by a character
that `sep` does not contain. -/
lemma findSub_append_none {sep x y : List Char} (hsep : sep ≠ [])
    (hx : findSub sep x = none) (hy : findSub sep y = none)
    (hb : (∃ c, c ∉ sep ∧ x.getLast? = some c) ∨
          (∃ c, c ∉ sep ∧ y.head? = some c)) :
    findSub sep (x ++ y) = none := by
  rw [findSub_none_iff hsep]
  intro i hpre
  rcases Nat.lt_or_ge i x.length with hi | hi
  · rcases prefix_drop_cases hi hpre with h | ⟨cx, cy, hcx, hcxm, hcy, hcym⟩
    · exact (findSub_none_iff hsep x).mp hx i h
    · rcases hb with ⟨c, hc, hlast⟩ | ⟨c, hc, hhead⟩
      · rw [hlast] at hcx
        exact hc (by rwa [← Option.some.inj hcx] at hcxm)
      · rw [hhead] at hcy
        exact hc (by rwa [← Option.some.inj hcy] at hcym)
  · have hdrop : (x ++ y).drop i = y.drop (i - x.length) := by
      have h2 : x.length + (i - x.length) = i := by omega
      conv_lhs => rw [← h2]
      rw [List.drop_append]
    rw [hdrop] at hpre
    exact (findSub_none_iff hsep y).mp hy (i - x.length) hpre

/-- A field piece followed by a newline-guarded rest. -/
lemma findSub_chain {sep f R : List Char} (hsep : sep ≠ []) (hnl : '\n' ∉ sep)
    (hf : findSub sep f = none) (hR : findSub sep R = none)
    (hhead : R.head? = some '\n') :
    findSub sep (f ++ R) = none :=
  findSub_append_none hsep hf hR (.inr ⟨'\n', hnl, hhead⟩)

/-- A newline-terminated piece followed by anything clean. -/
lemma findSub_chain' {sep x R : List Char} (hsep : sep ≠ []) (hnl : '\n' ∉ sep)
    (hx : findSub sep x = none) (hlast : x.getLast? = some '\n')
    (hR : findSub sep R = none) :
    findSub sep (x ++ R) = none :=
  findSub_append_none hsep hx hR (.inl ⟨'\n', hnl, hlast⟩)

lemma splitOnAux_fuel {sep : List Char} (hsep : sep ≠ []) :
    ∀ fuel s, s.length ≤ fuel → splitOnAux sep fuel s = splitOnStr sep s := by
  intro fuel
  induction fuel using Nat.strong_induction_on with
  | _ fuel ih =>
    intro s hs
    rcases hf : findSub sep s with _ | i
    · rw [splitOnAux_of_none hf, splitOnStr, splitOnAux_of_none hf]
    · have hsnil : s ≠ [] := by
        rintro rfl
        rw [findSub_nil hsep] at hf
        exact Option.noConfusion hf
      have hl : 1 ≤ s.length := List.length_pos.mpr hsnil
      have hL : 1 ≤ sep.length := List.length_pos.mpr hsep
      obtain ⟨f', rfl⟩ : ∃ f', fuel = f' + 1 := ⟨fuel - 1, by omega⟩
      obtain ⟨m, hm⟩ : ∃ m, s.length = m + 1 := ⟨s.length - 1, by omega⟩
      have hdlen : (s.drop (i + sep.length)).length ≤ m := by simp; omega
      rw [splitOnStr, hm]
      simp only [splitOnAux, hf]
      congr 1
      rw [ih f' (by omega) _ (by omega), ih m (by omega) _ hdlen]

/-- Cutting at a delimiter occurrence whose left part is newline-terminated
and clean: the split is the left part, then the split of the right part. -/
lemma splitOnStr_cons {sep A B : List Char} (hsep : sep ≠ []) (hnl : '\n' ∉ sep)
    (hA : A.getLast? = some '\n') (hAocc : findSub sep A = none) :
    splitOnStr sep (A ++ sep ++ B) = A :: splitOnStr sep B := by
  have hfind : findSub sep (A ++ sep ++ B) = some A.length := by
    apply findSub_first hsep
    intro i hi hpre
    rcases @prefix_drop_cases sep A (sep ++ B) i hi
        (by simpa [List.append_assoc] using hpre) with h | ⟨cx, cy, hcx, hcxm, -, -⟩
    · exact (findSub_none_iff hsep A).mp hAocc i h
    · rw [hA] at hcx
      exact hnl (by rwa [← Option.some.inj hcx] at hcxm)
  have hL : 1 ≤ sep.length := List.length_pos.mpr hsep
  have hlen : (A ++ sep ++ B).length = A.length + sep.length + B.length := by
    simp only [List.length_append]
  obtain ⟨m, hm⟩ : ∃ m, (A ++ sep ++ B).length = m + 1 :=
    ⟨(A ++ sep ++ B).length - 1, by omega⟩
  rw [splitOnStr, hm]
  simp only [splitOnAux, hfind]
  congr 1
  · rw [List.append_assoc, List.take_left' rfl]
  · rw [List.drop_left' (by simp)]
    exact splitOnAux_fuel hsep m B (by omega)

/-- Cutting at the unique delimiter occurrence. -/
lemma splitOnStr_pair {sep A B : List Char} (hsep : sep ≠ []) (hnl : '\n' ∉ sep)
    (hA : A.getLast? = some '\n') (hAocc : findSub sep A = none)
    (hBocc : findSub sep B = none) :
    splitOnStr sep (A ++ sep ++ B) = [A, B] := by
  rw [splitOnStr_cons hsep hnl hA hAocc, splitOnStr, splitOnAux_of_none hBocc]

lemma NL_getLast (X : List Char) : (NL X).getLast? = some '\n' := by
  rw [NL, show '\n' :: (X ++ ['\n']) = ('\n' :: X) ++ ['\n'] by simp,
    List.getLast?_concat]

/-! ### Trimming lemmas -/

lemma trimStr_cons_nl (s : List Char) : trimStr ('\n' :: s) = trimStr s := by
  unfold trimStr
  rw [List.dropWhile_cons_of_pos (by decide)]

lemma trimStr_append_nl (s : List Char) : trimStr (s ++ ['\n']) = trimStr s := by
  unfold trimStr
  rw [List.dropWhile_append]
  rcases h : (s.dropWhile Char.isWhitespace).isEmpty
  · simp only [Bool.false_eq_true, if_false]
    rw [List.reverse_append]
    simp only [List.reverse_cons, List.reverse_nil, List.nil_append,
      List.singleton_append]
    rw [List.dropWhile_cons_of_pos (by decide)]
  · simp only [if_true]
    have hnil : s.dropWhile Char.isWhitespace = [] := List.isEmpty_iff.mp h
    rw [hnil, show List.dropWhile Char.isWhitespace ['\n'] = [] by decide]

lemma trimStr_wrapped (s : List Char) : trimStr ('\n' :: (s ++ ['\n'])) = trimStr s := by
  rw [trimStr_cons_nl, trimStr_append_nl]

/-- C3: decoding fails exactly when one of the four delimiter splits (taken
left-to-right) does not yield exactly two parts — the error naming that
delimiter — or when the final segment splits on the action delimiter into
fewer than `N_PROPOSED_OPTIONS` parts; with at least that many it succeeds,
keeping the first `N_PROPOSED_OPTIONS` segments, each whitespace-trimmed:
the source decoder `TurnOutput.tryFrom` coincides with the specification
decoder `decodeSpec`. -/
theorem tryFrom_eq_decodeSpec (m : OutputMessage) :
    TurnOutput.tryFrom m = decodeSpec m := by
  unfold TurnOutput.tryFrom decodeSpec
  rcases h1 : splitOnStr EOID m.text with _ | ⟨d1, r1⟩
  · simp [h1]
  rcases r1 with _ | ⟨t1, r1'⟩
  · simp [h1]
  rcases r1' with _ | ⟨z1, w1⟩
  · -- exactly two parts for EOID
    simp only [h1, List.length_cons, List.length_nil, List.getD]
    norm_num
    rcases h2 : splitOnStr EOIC t1 with _ | ⟨d2, r2⟩
    · simp [h2]
    rcases r2 with _ | ⟨t2, r2'⟩
    · simp [h2]
    rcases r2' with _ | ⟨z2, w2⟩
    · simp only [h2, List.length_cons, List.length_nil, List.getD]
      norm_num
      rcases h3 : splitOnStr EOO t2 with _ | ⟨d3, r3⟩
      · simp [h3]
      rcases r3 with _ | ⟨t3, r3'⟩
      · simp [h3]
      rcases r3' with _ | ⟨z3, w3⟩
      · simp only [h3, List.length_cons, List.length_nil, List.getD]
        norm_num
        rcases h4 : splitOnStr EOS t3 with _ | ⟨d4, r4⟩
        · simp [h4]
        rcases r4 with _ | ⟨t4, r4'⟩
        · simp [h4]
        rcases r4' with _ | ⟨z4, w4⟩
        · simp only [h4, List.length_cons, List.length_nil, List.getD]
          norm_num
          rcases hle : decide
              (N_PROPOSED_OPTIONS ≤ ((splitOnStr EOA t4).map trimStr).length)
            with hfalse | htrue
          · have hlt : (splitOnStr EOA t4).length < N_PROPOSED_OPTIONS := by
              have := of_decide_eq_false hle
              simpa using Nat.lt_of_not_le (by simpa using this)
            rw [if_neg (by simpa using Nat.not_le_of_lt hlt), if_pos hlt]
          · have hge : N_PROPOSED_OPTIONS ≤ (splitOnStr EOA t4).length := by
              have := of_decide_eq_true hle
              simpa using this
            rw [if_pos (by simpa using hge), if_neg (by omega)]
        · simp [h4, List.length]
      · simp [h3, List.length]
    · simp [h2, List.length]
  · simp [h1, List.length]

/-! ### Clean-piece lemmas for the encode/decode round trip -/

lemma splitOnStr_of_none {sep s : List Char} (h : findSub sep s = none) :
    splitOnStr sep s = [s] :=
  splitOnAux_of_none h _

lemma findSub_singleton_nl {sep : List Char} (hsep : sep ≠ []) (hnl : '\n' ∉ sep) :
    findSub sep ['\n'] = none := by
  rw [findSub_none_iff hsep]
  intro i hpre
  rcases i with _ | j
  · rcases sep with _ | ⟨c, s'⟩
    · exact hsep rfl
    · obtain ⟨w, hw⟩ := hpre
      have hc : c = '\n' := by
        have := congrArg List.head? hw
        simpa using this
      exact hnl (hc ▸ List.mem_cons_self c s')
  · rw [List.drop_succ_cons, List.drop_nil] at hpre
    exact hsep (List.prefix_nil.mp hpre)

/-- A piece prefixed by a newline is clean and newline-headed. -/
lemma unit_clean {sep p : List Char} (hsep : sep ≠ []) (hnl : '\n' ∉ sep)
    (hp : findSub sep p = none) :
    findSub sep ('\n' :: p) = none ∧ ('\n' :: p).head? = some '\n' := by
  constructor
  · have := findSub_chain' hsep hnl (findSub_singleton_nl hsep hnl)
      (by decide) hp
    simpa using this
  · rfl

/-- No delimiter occurrence in a chain of newline-prefixed clean pieces. -/
lemma chain_noOcc {sep : List Char} (hsep : sep ≠ []) (hnl : '\n' ∉ sep) :
    ∀ ps : List (List Char), (∀ p ∈ ps, findSub sep p = none) →
      findSub sep (ps.map (fun p => '\n' :: p)).flatten = none := by
  intro ps
  induction ps with
  | nil => intro _; exact findSub_nil hsep
  | cons p rest ih =>
    intro h
    simp only [List.map_cons, List.flatten_cons]
    rcases rest with _ | ⟨q, rest'⟩
    · simpa using (unit_clean hsep hnl (h p (by simp))).1
    · apply findSub_chain hsep hnl (unit_clean hsep hnl (h p (by simp))).1
        (by
          have := ih (fun w hw => h w (by simp [hw]))
          simpa using this)
      simp only [List.map_cons, List.flatten_cons]
      rfl

lemma nl_EOID : "\n<<<EOID>>>\n".toList = ['\n'] ++ EOID ++ ['\n'] := by decide

lemma nl_EOIC : "\n<<<EOIC>>>\n".toList = ['\n'] ++ EOIC ++ ['\n'] := by decide

lemma nl_EOO : "\n<<<EOO>>>\n".toList = ['\n'] ++ EOO ++ ['\n'] := by decide

lemma nl_EOS : "\n<<<EOS>>>\n".toList = ['\n'] ++ EOS ++ ['\n'] := by decide

lemma nl_EOA : "\n<<<EOA>>>\n".toList = ['\n'] ++ EOA ++ ['\n'] := by decide

/-- C2, amended: decoding the encoding of a `TurnOutput` — with the same
token counts — succeeds and returns the value with every text field
whitespace-trimmed, provided no field contains any of the five protocol
delimiters as a substring. -/
theorem tryFrom_to_llm_format (t : TurnOutput)
    (hn : t.proposed_next_actions.length = N_PROPOSED_OPTIONS)
    (hclean : ∀ d ∈ [EOID, EOIC, EOO, EOS, EOA],
      ∀ f ∈ [t.image_description, t.image_caption, t.text, t.secret_info]
          ++ t.proposed_next_actions,
      findSub d f = none) :
    TurnOutput.tryFrom
      { input_tokens := t.input_tokens, output_tokens := t.output_tokens,
        text := t.to_llm_format } =
    .ok { text := trimStr t.text,
          image_description := trimStr t.image_description,
          image_caption := trimStr t.image_caption,
          secret_info := trimStr t.secret_info,
          proposed_next_actions := t.proposed_next_actions.map trimStr,
          input_tokens := t.input_tokens, output_tokens := t.output_tokens } := by
  obtain ⟨a1, a2, a3, hacts⟩ :=
    List.length_eq_three.mp (show t.proposed_next_actions.length = 3 from hn)
  rw [hacts] at hclean ⊢
  simp only [List.cons_append, List.nil_append] at hclean
  have hEOID := hclean EOID (by simp)
  have hEOIC := hclean EOIC (by simp)
  have hEOO := hclean EOO (by simp)
  have hEOS := hclean EOS (by simp)
  have hEOA := hclean EOA (by simp)
  -- the encoded text, nested to expose one delimiter at a time
  have hint : ∀ s : List Char,
      List.intercalate s [a1, a2, a3] = a1 ++ s ++ a2 ++ s ++ a3 := fun s => by
    simp [List.intercalate, List.intersperse]
  have henc : t.to_llm_format =
      (t.image_description ++ ['\n']) ++ EOID ++
        ('\n' :: (t.image_caption ++ ['\n'] ++ EOIC ++
          ('\n' :: (t.text ++ ['\n'] ++ EOO ++
            ('\n' :: (t.secret_info ++ ['\n'] ++ EOS ++
              ('\n' :: (a1 ++ ['\n'] ++ EOA ++
                ('\n' :: (a2 ++ ['\n'] ++ EOA ++ ('\n' :: a3))))))))))) := by
    simp only [TurnOutput.to_llm_format, hacts, hint, nl_EOID, nl_EOIC, nl_EOO,
      nl_EOS, nl_EOA]
    simp [List.append_assoc]
  -- occurrence-freedom of the successive remainders
  have occB1 : findSub EOID
      ('\n' :: (t.image_caption ++ ['\n'] ++ EOIC ++
        ('\n' :: (t.text ++ ['\n'] ++ EOO ++
          ('\n' :: (t.secret_info ++ ['\n'] ++ EOS ++
            ('\n' :: (a1 ++ ['\n'] ++ EOA ++
              ('\n' :: (a2 ++ ['\n'] ++ EOA ++ ('\n' :: a3))))))))))) = none := by
    have := @chain_noOcc EOID (by decide) (by decide)
      [t.image_caption, EOIC, t.text, EOO, t.secret_info, EOS, a1, EOA, a2, EOA, a3]
      (fun p hp => by
        simp only [List.mem_cons, List.not_mem_nil, or_false] at hp
        rcases hp with rfl | rfl | rfl | rfl | rfl | rfl | rfl | rfl | rfl | rfl | rfl
        all_goals first
          | decide
          | exact hEOID _ (by simp))
    simpa [List.append_assoc] using this
  have occB2 : findSub EOIC
      ('\n' :: (t.text ++ ['\n'] ++ EOO ++
        ('\n' :: (t.secret_info ++ ['\n'] ++ EOS ++
          ('\n' :: (a1 ++ ['\n'] ++ EOA ++
            ('\n' :: (a2 ++ ['\n'] ++ EOA ++ ('\n' :: a3))))))))) = none := by
    have := @chain_noOcc EOIC (by decide) (by decide)
      [t.text, EOO, t.secret_info, EOS, a1, EOA, a2, EOA, a3]
      (fun p hp => by
        simp only [List.mem_cons, List.not_mem_nil, or_false] at hp
        rcases hp with rfl | rfl | rfl | rfl | rfl | rfl | rfl | rfl | rfl
        all_goals first
          | decide
          | exact hEOIC _ (by simp))
    simpa [List.append_assoc] using this
  have occB3 : findSub EOO
      ('\n' :: (t.secret_info ++ ['\n'] ++ EOS ++
        ('\n' :: (a1 ++ ['\n'] ++ EOA ++
          ('\n' :: (a2 ++ ['\n'] ++ EOA ++ ('\n' :: a3))))))) = none := by
    have := @chain_noOcc EOO (by decide) (by decide)
      [t.secret_info, EOS, a1, EOA, a2, EOA, a3]
      (fun p hp => by
        simp only [List.mem_cons, List.not_mem_nil, or_false] at hp
        rcases hp with rfl | rfl | rfl | rfl | rfl | rfl | rfl
        all_goals first
          | decide
          | exact hEOO _ (by simp))
    simpa [List.append_assoc] using this
  have occB4 : findSub EOS
      ('\n' :: (a1 ++ ['\n'] ++ EOA ++
        ('\n' :: (a2 ++ ['\n'] ++ EOA ++ ('\n' :: a3))))) = none := by
    have := @chain_noOcc EOS (by decide) (by decide) [a1, EOA, a2, EOA, a3]
      (fun p hp => by
        simp only [List.mem_cons, List.not_mem_nil, or_false] at hp
        rcases hp with rfl | rfl | rfl | rfl | rfl
        all_goals first
          | decide
          | exact hEOS _ (by simp))
    simpa [List.append_assoc] using this
  -- the newline-terminated left parts are clean
  have occA1 : findSub EOID (t.image_description ++ ['\n']) = none :=
    findSub_chain (by decide) (by decide) (hEOID _ (by simp))
      (findSub_singleton_nl (by decide) (by decide)) (by decide)
  have occA2 : findSub EOIC (('\n' :: t.image_caption) ++ ['\n']) = none := by
    rw [show ('\n' :: t.image_caption) ++ ['\n'] =
      ['\n'] ++ (t.image_caption ++ ['\n']) by simp]
    exact findSub_chain' (by decide) (by decide)
      (findSub_singleton_nl (by decide) (by decide)) (by decide)
      (findSub_chain (by decide) (by decide) (hEOIC _ (by simp))
        (findSub_singleton_nl (by decide) (by decide)) (by decide))
  have occA3 : findSub EOO (('\n' :: t.text) ++ ['\n']) = none := by
    rw [show ('\n' :: t.text) ++ ['\n'] =
      ['\n'] ++ (t.text ++ ['\n']) by simp]
    exact findSub_chain' (by decide) (by decide)
      (findSub_singleton_nl (by decide) (by decide)) (by decide)
      (findSub_chain (by decide) (by decide) (hEOO _ (by simp))
        (findSub_singleton_nl (by decide) (by decide)) (by decide))
  have occA4 : findSub EOS (('\n' :: t.secret_info) ++ ['\n']) = none := by
    rw [show ('\n' :: t.secret_info) ++ ['\n'] =
      ['\n'] ++ (t.secret_info ++ ['\n']) by simp]
    exact findSub_chain' (by decide) (by decide)
      (findSub_singleton_nl (by decide) (by decide)) (by decide)
      (findSub_chain (by decide) (by decide) (hEOS _ (by simp))
        (findSub_singleton_nl (by decide) (by decide)) (by decide))
  have occA5 : findSub EOA (('\n' :: a1) ++ ['\n']) = none := by
    rw [show ('\n' :: a1) ++ ['\n'] =
      ['\n'] ++ (a1 ++ ['\n']) by simp]
    exact findSub_chain' (by decide) (by decide)
      (findSub_singleton_nl (by decide) (by decide)) (by decide)
      (findSub_chain (by decide) (by decide) (hEOA _ (by simp))
        (findSub_singleton_nl (by decide) (by decide)) (by decide))
  have occA6 : findSub EOA (('\n' :: a2) ++ ['\n']) = none := by
    rw [show ('\n' :: a2) ++ ['\n'] =
      ['\n'] ++ (a2 ++ ['\n']) by simp]
    exact findSub_chain' (by decide) (by decide)
      (findSub_singleton_nl (by decide) (by decide)) (by decide)
      (findSub_chain (by decide) (by decide) (hEOA _ (by simp))
        (findSub_singleton_nl (by decide) (by decide)) (by decide))
  -- the four delimiter splits
  have s1 : splitOnStr EOID (t.to_llm_format) =
      [t.image_description ++ ['\n'],
        '\n' :: (t.image_caption ++ ['\n'] ++ EOIC ++
          ('\n' :: (t.text ++ ['\n'] ++ EOO ++
            ('\n' :: (t.secret_info ++ ['\n'] ++ EOS ++
              ('\n' :: (a1 ++ ['\n'] ++ EOA ++
                ('\n' :: (a2 ++ ['\n'] ++ EOA ++ ('\n' :: a3))))))))))] := by
    rw [henc]
    exact splitOnStr_pair (by decide) (by decide) (List.getLast?_concat _)
      occA1 occB1
  have s2 : splitOnStr EOIC
      ('\n' :: (t.image_caption ++ ['\n'] ++ EOIC ++
        ('\n' :: (t.text ++ ['\n'] ++ EOO ++
          ('\n' :: (t.secret_info ++ ['\n'] ++ EOS ++
            ('\n' :: (a1 ++ ['\n'] ++ EOA ++
              ('\n' :: (a2 ++ ['\n'] ++ EOA ++ ('\n' :: a3))))))))))) =
      [('\n' :: t.image_caption) ++ ['\n'],
        '\n' :: (t.text ++ ['\n'] ++ EOO ++
          ('\n' :: (t.secret_info ++ ['\n'] ++ EOS ++
            ('\n' :: (a1 ++ ['\n'] ++ EOA ++
              ('\n' :: (a2 ++ ['\n'] ++ EOA ++ ('\n' :: a3))))))))] := by
    rw [show ('\n' :: (t.image_caption ++ ['\n'] ++ EOIC ++
        ('\n' :: (t.text ++ ['\n'] ++ EOO ++
          ('\n' :: (t.secret_info ++ ['\n'] ++ EOS ++
            ('\n' :: (a1 ++ ['\n'] ++ EOA ++
              ('\n' :: (a2 ++ ['\n'] ++ EOA ++ ('\n' :: a3))))))))))) =
      (('\n' :: t.image_caption) ++ ['\n']) ++ EOIC ++
        ('\n' :: (t.text ++ ['\n'] ++ EOO ++
          ('\n' :: (t.secret_info ++ ['\n'] ++ EOS ++
            ('\n' :: (a1 ++ ['\n'] ++ EOA ++
              ('\n' :: (a2 ++ ['\n'] ++ EOA ++ ('\n' :: a3)))))))))
      by simp [List.append_assoc]]
    exact splitOnStr_pair (by decide) (by decide) (List.getLast?_concat _)
      occA2 occB2
  have s3 : splitOnStr EOO
      ('\n' :: (t.text ++ ['\n'] ++ EOO ++
        ('\n' :: (t.secret_info ++ ['\n'] ++ EOS ++
          ('\n' :: (a1 ++ ['\n'] ++ EOA ++
            ('\n' :: (a2 ++ ['\n'] ++ EOA ++ ('\n' :: a3))))))))) =
      [('\n' :: t.text) ++ ['\n'],
        '\n' :: (t.secret_info ++ ['\n'] ++ EOS ++
          ('\n' :: (a1 ++ ['\n'] ++ EOA ++
            ('\n' :: (a2 ++ ['\n'] ++ EOA ++ ('\n' :: a3))))))] := by
    rw [show ('\n' :: (t.text ++ ['\n'] ++ EOO ++
        ('\n' :: (t.secret_info ++ ['\n'] ++ EOS ++
          ('\n' :: (a1 ++ ['\n'] ++ EOA ++
            ('\n' :: (a2 ++ ['\n'] ++ EOA ++ ('\n' :: a3))))))))) =
      (('\n' :: t.text) ++ ['\n']) ++ EOO ++
        ('\n' :: (t.secret_info ++ ['\n'] ++ EOS ++
          ('\n' :: (a1 ++ ['\n'] ++ EOA ++
            ('\n' :: (a2 ++ ['\n'] ++ EOA ++ ('\n' :: a3)))))))
      by simp [List.append_assoc]]
    exact splitOnStr_pair (by decide) (by decide) (List.getLast?_concat _)
      occA3 occB3
  have s4 : splitOnStr EOS
      ('\n' :: (t.secret_info ++ ['\n'] ++ EOS ++
        ('\n' :: (a1 ++ ['\n'] ++ EOA ++
          ('\n' :: (a2 ++ ['\n'] ++ EOA ++ ('\n' :: a3))))))) =
      [('\n' :: t.secret_info) ++ ['\n'],
        '\n' :: (a1 ++ ['\n'] ++ EOA ++
          ('\n' :: (a2 ++ ['\n'] ++ EOA ++ ('\n' :: a3))))] := by
    rw [show ('\n' :: (t.secret_info ++ ['\n'] ++ EOS ++
        ('\n' :: (a1 ++ ['\n'] ++ EOA ++
          ('\n' :: (a2 ++ ['\n'] ++ EOA ++ ('\n' :: a3))))))) =
      (('\n' :: t.secret_info) ++ ['\n']) ++ EOS ++
        ('\n' :: (a1 ++ ['\n'] ++ EOA ++
          ('\n' :: (a2 ++ ['\n'] ++ EOA ++ ('\n' :: a3)))))
      by simp [List.append_assoc]]
    exact splitOnStr_pair (by decide) (by decide) (List.getLast?_concat _)
      occA4 occB4
  have s5 : splitOnStr EOA
      ('\n' :: (a1 ++ ['\n'] ++ EOA ++
        ('\n' :: (a2 ++ ['\n'] ++ EOA ++ ('\n' :: a3))))) =
      [('\n' :: a1) ++ ['\n'], ('\n' :: a2) ++ ['\n'], '\n' :: a3] := by
    rw [show ('\n' :: (a1 ++ ['\n'] ++ EOA ++
        ('\n' :: (a2 ++ ['\n'] ++ EOA ++ ('\n' :: a3))))) =
      (('\n' :: a1) ++ ['\n']) ++ EOA ++
        ('\n' :: (a2 ++ ['\n'] ++ EOA ++ ('\n' :: a3)))
      by simp [List.append_assoc]]
    rw [splitOnStr_cons (by decide) (by decide) (List.getLast?_concat _) occA5]
    rw [show ('\n' :: (a2 ++ ['\n'] ++ EOA ++ ('\n' :: a3))) =
      (('\n' :: a2) ++ ['\n']) ++ EOA ++ ('\n' :: a3)
      by simp [List.append_assoc]]
    rw [splitOnStr_cons (by decide) (by decide) (List.getLast?_concat _) occA6]
    rw [splitOnStr_of_none
      (unit_clean (by decide) (by decide) (hEOA _ (by simp))).1]
  -- assemble
  simp only [TurnOutput.tryFrom, s1, s2, s3, s4, s5, List.map_cons, List.map_nil,
    List.length_cons, List.length_nil]
  norm_num
  simp only [trimStr_append_nl, trimStr_cons_nl, List.take]
  rfl

/-- Witness for `tryFrom_to_llm_format` at a concrete `TurnOutput`. -/
theorem tryFrom_to_llm_format_witness :
    TurnOutput.tryFrom
      { input_tokens := 5, output_tokens := 7,
        text := TurnOutput.to_llm_format
          { text := " o ".toList, image_description := "d".toList,
            image_caption := "c".toList, secret_info := "s".toList,
            proposed_next_actions := ["x".toList, "y".toList, "z".toList],
            input_tokens := 5, output_tokens := 7 } } =
    .ok { text := trimStr " o ".toList,
          image_description := trimStr "d".toList,
          image_caption := trimStr "c".toList,
          secret_info := trimStr "s".toList,
          proposed_next_actions :=
            (["x".toList, "y".toList, "z".toList]).map trimStr,
          input_tokens := 5, output_tokens := 7 } :=
  tryFrom_to_llm_format
    { text := " o ".toList, image_description := "d".toList,
      image_caption := "c".toList, secret_info := "s".toList,
      proposed_next_actions := ["x".toList, "y".toList, "z".toList],
      input_tokens := 5, output_tokens := 7 }
    (by decide) (by decide)

/-- C2, counterexample to the claim as stated: a `TurnOutput` whose
`image_description` contains the `<<<EOID>>>` delimiter has exactly
`N_PROPOSED_OPTIONS` proposed actions, yet decoding its encoding fails
(the first split meets the delimiter twice) instead of reproducing the
value up to trimming. -/
theorem c2_counterexample :
    ((["x".toList, "y".toList, "z".toList] : List (List Char)).length =
      N_PROPOSED_OPTIONS) ∧
    TurnOutput.tryFrom
      { input_tokens := 0, output_tokens := 0,
        text := TurnOutput.to_llm_format
          { text := "o".toList, image_description := "<<<EOID>>>".toList,
            image_caption := "c".toList, secret_info := "s".toList,
            proposed_next_actions := ["x".toList, "y".toList, "z".toList],
            input_tokens := 0, output_tokens := 0 } } =
      .error .noEOID :=
  ⟨by decide, by rfl⟩

/-! ### Summarization trigger and commit -/

/-- C4, amended: the trigger compares the index of the last committed turn
(`turn_count − 1`), one commit later than the claim's `turn_count`: it fires
exactly when `turn_count ≥ SUMMARY_INTERVAL + 1` with no summary, or
`turn_count ≥ bday + SUMMARY_INTERVAL + 1` with a latest summary; committing
with a summary text appends a `Summary` whose `bday` is the index of the
newly committed turn, committing without one leaves the summary list
unchanged, and either way the turn history grows by one. -/
theorem summarization_trigger (data : GameData) :
    (mkSummaryDecision data = true ↔
      (match data.summaries.getLast? with
       | none => data.turn_data.length ≥ SUMMARY_INTERVAL + 1
       | some s => data.turn_data.length ≥ s.bday + SUMMARY_INTERVAL + 1)) ∧
    (∀ input output ids caps content,
      (Game.update data input output ids caps (some content)).summaries =
        data.summaries ++ [⟨content, data.turn_data.length⟩] ∧
      (Game.update data input output ids caps none).summaries =
        data.summaries ∧
      (Game.update data input output ids caps (some content)).turn_data.length
        = data.turn_data.length + 1) := by
  constructor
  · unfold mkSummaryDecision SUMMARY_INTERVAL
    rcases hl : data.summaries.getLast? with _ | s
    · simp only [decide_eq_true_eq]
      omega
    · simp only [decide_eq_true_eq]
      omega
  · intro input output ids caps content
    refine ⟨?_, ?_, ?_⟩
    · simp [Game.update]
    · simp [Game.update]
    · simp [Game.update]

/-- C4, counterexample to the claim as stated: with eight committed turns and
no summary, `turn_count ≥ 8` holds, yet the code does not trigger
summarization (it compares `turn_count − 1 = 7` against 8). -/
theorem c4_counterexample :
    exData8.summaries = [] ∧ exData8.turn_data.length = SUMMARY_INTERVAL ∧
      mkSummaryDecision exData8 = false :=
  ⟨rfl, by decide, by decide⟩

/-- C5, amended: when summarization triggers, the request pairs the latest
summary's text (empty if none) with exactly the last `SUMMARY_INTERVAL`
committed turns; when a prior summary exists and the trigger fires at its
first opportunity, that window is exactly the turns with index greater than
the prior summary's bday; and the stored `Summary` gets `bday` equal to the
index of the newly committed turn — one past the last turn the summarized
window covers. -/
theorem summarization_window (data : GameData)
    (h : mkSummaryDecision data = true) :
    mkSummaryArgs data =
      some ((data.summaries.getLast?.map Summary.content).getD [],
        data.turn_data.drop (data.turn_data.length - SUMMARY_INTERVAL)) ∧
    (data.turn_data.drop (data.turn_data.length - SUMMARY_INTERVAL)).length =
      SUMMARY_INTERVAL ∧
    (∀ s, data.summaries.getLast? = some s →
      data.turn_data.length = s.bday + SUMMARY_INTERVAL + 1 →
      data.turn_data.drop (data.turn_data.length - SUMMARY_INTERVAL) =
        data.turn_data.drop (s.bday + 1)) ∧
    (∀ input output ids caps content,
      (Game.update data input output ids caps
        (some content)).summaries.getLast? =
        some ⟨content, data.turn_data.length⟩) := by
  have hlen : SUMMARY_INTERVAL + 1 ≤ data.turn_data.length := by
    unfold SUMMARY_INTERVAL
    rcases hl : data.summaries.getLast? with _ | s
    · simp only [mkSummaryDecision, SUMMARY_INTERVAL, hl,
        decide_eq_true_eq] at h
      omega
    · simp only [mkSummaryDecision, SUMMARY_INTERVAL, hl,
        decide_eq_true_eq] at h
      omega
  refine ⟨by rw [mkSummaryArgs, if_pos h], ?_, ?_, ?_⟩
  · simp only [List.length_drop]
    unfold SUMMARY_INTERVAL at hlen ⊢
    omega
  · intro s hs hfirst
    congr 1
    omega
  · intro input output ids caps content
    simp [Game.update]

/-- Witness for `summarization_window`: nine committed turns and no summary. -/
theorem summarization_window_witness :
    mkSummaryArgs exData9 =
      some ((exData9.summaries.getLast?.map Summary.content).getD [],
        exData9.turn_data.drop (exData9.turn_data.length - SUMMARY_INTERVAL)) ∧
    (exData9.turn_data.drop
      (exData9.turn_data.length - SUMMARY_INTERVAL)).length =
      SUMMARY_INTERVAL ∧
    (Game.update exData9 exInput exOutput (0, []) ([], [])
      (some ['s'])).summaries.getLast? = some ⟨['s'], exData9.turn_data.length⟩
    := by
  obtain ⟨h1, h2, h3, h4⟩ := summarization_window exData9 (by decide)
  exact ⟨h1, h2, h4 exInput exOutput (0, []) ([], []) ['s']⟩

/-- C5, counterexample to the claim as stated: at the first summarization
(nine committed turns, no prior summary) the unsummarized window is all nine
committed turns, but the request carries only the last eight (turn 0 is
never summarized), and the stored Summary's bday is 9 — the index of the
newly committed turn — although the summarized window ends at turn index 8. -/
theorem c5_counterexample :
    mkSummaryDecision exData9 = true ∧
    exData9.summaries = [] ∧
    exData9.turn_data.length = 9 ∧
    (mkSummaryArgs exData9).map (fun a => a.2.length) = some 8 ∧
    (mkSummaryArgs exData9).map (fun a => a.2) =
      some (exData9.turn_data.drop 1) ∧
    (Game.update exData9 exInput exOutput (0, []) ([], [])
      (some ['s'])).summaries = [⟨['s'], 9⟩] :=
  ⟨by decide, rfl, by decide, by decide, by decide, by decide⟩

/-! ### Post-completion stream polling -/

/-- C9, amended: after the `MessageComplete` event both paths poll the
stream exactly once more, but only the summarization path
(`create_new_summary`) treats every outcome other than end-of-stream as an
error; the main turn path (`Game::send_to_llm`) propagates a transport error
yet silently discards an additional event. -/
theorem post_complete_poll (p : PollResult) :
    ((finishSummaryPoll p).isOk = true ↔ p = .ok none) ∧
    ((finishTurnPoll p).isOk = true ↔ ∃ v, p = .ok v) ∧
    (∀ f : ResponseFragment, finishTurnPoll (.ok (some f)) = .ok ()) := by
  refine ⟨?_, ?_, fun f => rfl⟩
  · rcases p with e | v
    · simp [finishSummaryPoll, Except.isOk, Except.toBool]
    · rcases v with _ | f <;> simp [finishSummaryPoll, Except.isOk, Except.toBool]
  · rcases p with e | v <;> simp [finishTurnPoll, Except.isOk, Except.toBool]

/-- C9, counterexample to the claim as stated: an additional `TextDelta`
event after `MessageComplete` is not an error on the main turn path — it is
silently discarded — while the summarization path does reject it. -/
theorem c9_counterexample :
    finishTurnPoll (.ok (some (.TextDelta ['x']))) = .ok () ∧
    finishSummaryPoll (.ok (some (.TextDelta ['x']))) ≠ .ok () :=
  ⟨rfl, by simp [finishSummaryPoll]⟩

/-! ### Game construction -/

/-- C10: `Game::try_new` succeeds exactly when the player character is a key
of the world description's character map, and on success the session starts
with the given world description and character, no summaries, and no
committed turns. -/
theorem game_try_new_spec (wd : WorldDescription) (pc : List Char) :
    ((Game.try_new wd pc).isOk = true ↔
      ∃ d, (pc, d) ∈ wd.pc_descriptions) ∧
    (∀ g, Game.try_new wd pc = .ok g →
      g.world_description = wd ∧ g.pc = pc ∧ g.summaries = [] ∧
        g.turn_data = []) := by
  have hkey : containsKey wd.pc_descriptions pc = true ↔
      ∃ d, (pc, d) ∈ wd.pc_descriptions := by
    unfold containsKey
    rw [List.any_eq_true]
    constructor
    · rintro ⟨⟨k, v⟩, hm, he⟩
      have hk : k = pc := by simpa using he
      exact ⟨v, hk ▸ hm⟩
    · rintro ⟨d, hd⟩
      exact ⟨(pc, d), hd, by simp⟩
  constructor
  · rw [← hkey]
    unfold Game.try_new
    rcases h : containsKey wd.pc_descriptions pc
    · simp [Except.isOk, Except.toBool]
    · simp [Except.isOk, Except.toBool]
  · intro g hg
    unfold Game.try_new at hg
    rcases h : containsKey wd.pc_descriptions pc
    · rw [if_neg (by simp [h])] at hg
      exact absurd hg (by simp)
    · rw [if_pos h] at hg
      injection hg with hg
      subst hg
      exact ⟨rfl, rfl, rfl, rfl⟩

/-- Witness for `game_try_new_spec` at a concrete one-character world. -/
theorem game_try_new_spec_witness :
    (Game.try_new exWorld ['A']).isOk = true ∧
    (⟨exWorld, ['A'], [], []⟩ : GameData).world_description = exWorld ∧
    (⟨exWorld, ['A'], [], []⟩ : GameData).summaries = [] := by
  obtain ⟨h1, h2⟩ := game_try_new_spec exWorld ['A']
  have hg := h2 (⟨exWorld, ['A'], [], []⟩ : GameData) (by rfl)
  exact ⟨h1.mpr ⟨['d'], by decide⟩, hg.1, hg.2.2.1⟩

/-! ### File-model lemmas -/

lemma map_getD_range (bs : List Nat) :
    (List.range bs.length).map (fun j => bs.getD j 0) = bs := by
  apply List.ext_getElem (by simp)
  intro i h1 h2
  simp [List.getD_eq_getElem?_getD, List.getElem?_eq_getElem h2]

lemma FileM.read_write_exact (f : FileM) (pos : Nat) (bs : List Nat) :
    (f.write pos bs).read pos bs.length = .ok bs := by
  unfold FileM.read FileM.write
  rw [if_pos (by simp)]
  refine congrArg Except.ok ?_
  have : ∀ j ∈ List.range bs.length,
      (fun i => if pos ≤ i ∧ i < pos + bs.length then bs.getD (i - pos) 0
        else if i < f.size then f.data i else 0) (pos + j) =
      (fun j => bs.getD j 0) j := by
    intro j hj
    rw [List.mem_range] at hj
    simp only []
    rw [if_pos (by omega)]
    congr 1
    omega
  rw [List.map_congr_left this, map_getD_range]

lemma FileM.read_write_below {f : FileM} {pos p n : Nat} {bs : List Nat}
    (h1 : p + n ≤ pos) (h2 : p + n ≤ f.size) :
    (f.write pos bs).read p n = f.read p n := by
  unfold FileM.read FileM.write
  rw [if_pos (by simp; omega), if_pos h2]
  refine congrArg Except.ok (List.map_congr_left ?_)
  intro j hj
  rw [List.mem_range] at hj
  simp only []
  rw [if_neg (by omega), if_pos (by omega)]

lemma FileM.read_write_above {f : FileM} {pos p n : Nat} {bs : List Nat}
    (h1 : pos + bs.length ≤ p) (h2 : p + n ≤ f.size) :
    (f.write pos bs).read p n = f.read p n := by
  unfold FileM.read FileM.write
  rw [if_pos (by simp; omega), if_pos h2]
  refine congrArg Except.ok (List.map_congr_left ?_)
  intro j hj
  rw [List.mem_range] at hj
  simp only []
  rw [if_neg (by omega), if_pos (by omega)]

lemma FileM.read_setLen {f : FileM} {m p n : Nat}
    (h1 : p + n ≤ m) (h2 : p + n ≤ f.size) :
    (f.setLen m).read p n = f.read p n := by
  unfold FileM.read FileM.setLen
  rw [if_pos (by simpa using h1), if_pos h2]
  refine congrArg Except.ok (List.map_congr_left ?_)
  intro j hj
  rw [List.mem_range] at hj
  simp only []
  rw [if_pos (by omega)]

lemma FileM.read_zero (f : FileM) (pos : Nat) (h : pos ≤ f.size) :
    f.read pos 0 = .ok [] := by
  unfold FileM.read
  rw [if_pos (by omega)]
  rfl

lemma FileM.size_write (f : FileM) (pos : Nat) (bs : List Nat) :
    (f.write pos bs).size = max f.size (pos + bs.length) := rfl

lemma FileM.size_setLen (f : FileM) (n : Nat) : (f.setLen n).size = n := rfl

/-! ### Little-endian and header serialization lemmas -/

lemma le64_length (n : Nat) : (le64 n).length = 8 := rfl

lemma le64dec_le64 {n : Nat} (h : n < U64_BOUND) : le64dec (le64 n) = n := by
  simp only [le64, le64dec, List.foldr]
  unfold U64_BOUND at h
  omega

lemma headerBytes_length {h : SaveHeader} (hm : h.magic = MAGIC) :
    (headerBytes h).length = HEADER_SIZE := by
  simp [headerBytes, hm, MAGIC, le64, HEADER_SIZE]

lemma parseHeader_headerBytes {h : SaveHeader} (hm : h.magic = MAGIC)
    (h1 : h.version < U64_BOUND) (h2 : h.game_data_region_size < U64_BOUND)
    (h3 : h.game_data_size < U64_BOUND)
    (h4 : h.game_data_region_offset < U64_BOUND)
    (h5 : h.index_offset < U64_BOUND) (h6 : h.index_size < U64_BOUND) :
    parseHeader (headerBytes h) = h := by
  obtain ⟨mg, v, rs, gs, ro, io, is⟩ := h
  simp only at hm h1 h2 h3 h4 h5 h6
  subst hm
  have e : headerBytes ⟨MAGIC, v, rs, gs, ro, io, is⟩ =
      MAGIC ++ (le64 v ++ (le64 rs ++ (le64 gs ++ (le64 ro ++
        (le64 io ++ le64 is))))) := by
    simp [headerBytes, List.append_assoc]
  unfold parseHeader
  rw [e]
  have t8 : ∀ (x r : List Nat), x.length = 8 → (x ++ r).take 8 = x :=
    fun x r hx => List.take_left' hx
  have d8 : ∀ (x r : List Nat), x.length = 8 → (x ++ r).drop 8 = r :=
    fun x r hx => List.drop_left' hx
  have hM : (MAGIC : List Nat).length = 8 := rfl
  simp only [SaveHeader.mk.injEq]
  refine ⟨t8 _ _ hM, ?_, ?_, ?_, ?_, ?_, ?_⟩
  · rw [d8 _ _ hM, t8 _ _ (le64_length v), le64dec_le64 h1]
  · rw [show (16 : Nat) = 8 + 8 by rfl, ← List.drop_drop, d8 _ _ hM,
      d8 _ _ (le64_length v), t8 _ _ (le64_length rs), le64dec_le64 h2]
  · rw [show (24 : Nat) = 8 + (8 + 8) by rfl, ← List.drop_drop,
      ← List.drop_drop, d8 _ _ hM, d8 _ _ (le64_length v),
      d8 _ _ (le64_length rs), t8 _ _ (le64_length gs), le64dec_le64 h3]
  · rw [show (32 : Nat) = 8 + (8 + (8 + 8)) by rfl, ← List.drop_drop,
      ← List.drop_drop, ← List.drop_drop, d8 _ _ hM, d8 _ _ (le64_length v),
      d8 _ _ (le64_length rs), d8 _ _ (le64_length gs),
      t8 _ _ (le64_length ro), le64dec_le64 h4]
  · rw [show (40 : Nat) = 8 + (8 + (8 + (8 + 8))) by rfl, ← List.drop_drop,
      ← List.drop_drop, ← List.drop_drop, ← List.drop_drop, d8 _ _ hM,
      d8 _ _ (le64_length v), d8 _ _ (le64_length rs),
      d8 _ _ (le64_length gs), d8 _ _ (le64_length ro),
      t8 _ _ (le64_length io), le64dec_le64 h5]
  · rw [show (48 : Nat) = 8 + (8 + (8 + (8 + (8 + 8)))) by rfl,
      ← List.drop_drop, ← List.drop_drop, ← List.drop_drop, ← List.drop_drop,
      ← List.drop_drop, d8 _ _ hM, d8 _ _ (le64_length v),
      d8 _ _ (le64_length rs), d8 _ _ (le64_length gs),
      d8 _ _ (le64_length ro), d8 _ _ (le64_length io),
      List.take_of_length_le (by rw [le64_length]), le64dec_le64 h6]

/-! ### Index serialization lemmas -/

lemma flattenEnc_length :
    ∀ idx : List (Nat × Nat),
      ((idx.map (fun p => le64 p.1 ++ le64 p.2)).flatten).length =
        16 * idx.length := by
  intro idx
  induction idx with
  | nil => rfl
  | cons p r ih =>
    simp only [List.map_cons, List.flatten_cons, List.length_append, ih,
      List.length_cons, List.length_append, le64_length]
    omega

lemma serializeIndex_length (idx : List (Nat × Nat)) :
    (serializeIndex idx).length = 8 + 16 * idx.length := by
  unfold serializeIndex
  rw [List.length_append, le64_length, flattenEnc_length]

lemma decPairs_enc :
    ∀ idx : List (Nat × Nat),
      (∀ p ∈ idx, p.1 < U64_BOUND ∧ p.2 < U64_BOUND) →
      decPairs idx.length
        ((idx.map (fun p => le64 p.1 ++ le64 p.2)).flatten) = some idx := by
  intro idx
  induction idx with
  | nil => intro _; rfl
  | cons p rest ih =>
    intro h
    simp only [List.map_cons, List.flatten_cons, List.length_cons, decPairs]
    have e : le64 p.1 ++ le64 p.2 ++
        ((rest.map (fun p => le64 p.1 ++ le64 p.2)).flatten) =
        (le64 p.1 ++ le64 p.2) ++
          ((rest.map (fun p => le64 p.1 ++ le64 p.2)).flatten) := by
      simp [List.append_assoc]
    have hd16 : (le64 p.1 ++ le64 p.2 ++
        ((rest.map (fun p => le64 p.1 ++ le64 p.2)).flatten)).drop 16 =
        (rest.map (fun p => le64 p.1 ++ le64 p.2)).flatten := by
      rw [e, List.drop_left' (by simp [le64_length])]
    have ht8 : (le64 p.1 ++ le64 p.2 ++
        ((rest.map (fun p => le64 p.1 ++ le64 p.2)).flatten)).take 8 =
        le64 p.1 := by
      rw [List.append_assoc, List.take_left' (le64_length _)]
    have hd8 : ((le64 p.1 ++ le64 p.2 ++
        ((rest.map (fun p => le64 p.1 ++ le64 p.2)).flatten)).drop 8).take 8 =
        le64 p.2 := by
      rw [List.append_assoc, List.drop_left' (le64_length _),
        List.take_left' (le64_length _)]
    rw [hd16, ht8, hd8, ih (fun q hq => h q (by simp [hq])),
      le64dec_le64 (h p (by simp)).1, le64dec_le64 (h p (by simp)).2]
    rfl

lemma deserializeIndex_serializeIndex (idx : List (Nat × Nat))
    (hb : ∀ p ∈ idx, p.1 < U64_BOUND ∧ p.2 < U64_BOUND)
    (hc : idx.length < U64_BOUND) :
    deserializeIndex (serializeIndex idx) = some idx := by
  unfold deserializeIndex serializeIndex
  rw [List.take_left' (le64_length _), List.drop_left' (le64_length _),
    le64dec_le64 hc, decPairs_enc idx hb]

/-! ### Packed-index lemmas -/

lemma totalLen_nil : totalLen [] = 0 := rfl

lemma totalLen_cons (b : List Nat) (r : List (List Nat)) :
    totalLen (b :: r) = b.length + totalLen r := by
  simp [totalLen]

lemma totalLen_append (x y : List (List Nat)) :
    totalLen (x ++ y) = totalLen x + totalLen y := by
  simp [totalLen]

lemma indexFrom_length : ∀ (imgs : List (List Nat)) (off : Nat),
    (indexFrom off imgs).length = imgs.length := by
  intro imgs
  induction imgs with
  | nil => intro off; rfl
  | cons b r ih => intro off; simp [indexFrom, ih]

lemma indexFrom_append :
    ∀ (imgs : List (List Nat)) (off : Nat) (b : List Nat),
      indexFrom off (imgs ++ [b]) =
        indexFrom off imgs ++ [(off + totalLen imgs, b.length)] := by
  intro imgs
  induction imgs with
  | nil => intro off b; simp [indexFrom, totalLen_nil]
  | cons c r ih =>
    intro off b
    simp only [List.cons_append, indexFrom, ih, totalLen_cons, List.append_eq]
    rw [show off + (c.length + totalLen r) = off + c.length + totalLen r by omega]

lemma indexFrom_get? :
    ∀ (imgs : List (List Nat)) (off : Nat) (i : Nat), i < imgs.length →
      (indexFrom off imgs).get? i =
        some (off + totalLen (imgs.take i), (imgs.getD i []).length) := by
  intro imgs
  induction imgs with
  | nil => intro off i hi; simp at hi
  | cons b r ih =>
    intro off i hi
    cases i with
    | zero => simp [indexFrom, totalLen_nil]
    | succ j =>
      have hj : j < r.length := by simpa using hi
      simp only [indexFrom, List.get?_cons_succ, List.take_succ_cons,
        totalLen_cons, List.getD_cons_succ]
      rw [ih _ j hj]
      simp [Nat.add_assoc]

lemma indexFrom_bounds :
    ∀ (imgs : List (List Nat)) (off : Nat) (p : Nat × Nat),
      p ∈ indexFrom off imgs →
      off ≤ p.1 ∧ p.1 + p.2 ≤ off + totalLen imgs := by
  intro imgs
  induction imgs with
  | nil => intro off p hp; simp [indexFrom] at hp
  | cons b r ih =>
    intro off p hp
    simp only [indexFrom, List.mem_cons] at hp
    rcases hp with rfl | hp
    · simp only [totalLen_cons]
      omega
    · have := ih (off + b.length) p hp
      rw [totalLen_cons]
      omega

lemma totalLen_take_succ {imgs : List (List Nat)} {i : Nat}
    (h : i < imgs.length) :
    totalLen (imgs.take (i + 1)) =
      totalLen (imgs.take i) + (imgs.getD i []).length := by
  rw [List.take_succ, totalLen_append]
  congr 1
  rw [List.getElem?_eq_getElem h]
  simp [totalLen, List.getD_eq_getElem?_getD, List.getElem?_eq_getElem h]

lemma totalLen_take_le (imgs : List (List Nat)) (k : Nat) :
    totalLen (imgs.take k) ≤ totalLen imgs := by
  conv_rhs => rw [← List.take_append_drop k imgs]
  rw [totalLen_append]
  omega

lemma hs_le_base : HEADER_SIZE ≤ baseOffset := by
  norm_num [baseOffset, HEADER_SIZE, DEFAULT_GAME_DATA_SIZE]

/-! ### Archive invariant lemmas -/

lemma append_image_eq (a : SaveArchive) (b : List Nat) :
    a.append_image b = ((),
      { file := write_header
          (((a.file.setLen a.header.index_offset).write
              a.header.index_offset b).write
            (a.header.index_offset + b.length)
            (serializeIndex
              (a.image_index ++ [(a.header.index_offset, b.length)])))
          { a.header with
            index_offset := a.header.index_offset + b.length,
            index_size := (serializeIndex
              (a.image_index ++ [(a.header.index_offset, b.length)])).length },
        header := { a.header with
          index_offset := a.header.index_offset + b.length,
          index_size := (serializeIndex
            (a.image_index ++ [(a.header.index_offset, b.length)])).length },
        image_index :=
          a.image_index ++ [(a.header.index_offset, b.length)] }) := rfl

lemma append_read_index (file : FileM) (O : Nat) (b ser hb2 : List Nat)
    (h56 : hb2.length ≤ O) :
    ((((file.setLen O).write O b).write (O + b.length) ser).write 0 hb2).read
      (O + b.length) ser.length = .ok ser := by
  have hsz3 : (((file.setLen O).write O b).write (O + b.length) ser).size =
      O + b.length + ser.length := by
    simp only [FileM.size_write, FileM.size_setLen]
    omega
  have e1 := @FileM.read_write_above
    (((file.setLen O).write O b).write (O + b.length) ser) 0 (O + b.length)
    ser.length hb2 (by omega) (by rw [hsz3])
  rw [e1]
  exact FileM.read_write_exact ((file.setLen O).write O b) (O + b.length) ser

lemma append_read_old (file : FileM) (O p n : Nat) (b ser hb2 v : List Nat)
    (hpn : p + n ≤ O) (hhb : hb2.length ≤ p) (hsz : O ≤ file.size)
    (hold : file.read p n = .ok v) :
    ((((file.setLen O).write O b).write (O + b.length) ser).write 0 hb2).read
      p n = .ok v := by
  have hsz1 : (file.setLen O).size = O := rfl
  have hsz2 : ((file.setLen O).write O b).size = O + b.length := by
    simp only [FileM.size_write, FileM.size_setLen]
    omega
  have hsz3 : (((file.setLen O).write O b).write (O + b.length) ser).size =
      O + b.length + ser.length := by
    simp only [FileM.size_write, FileM.size_setLen]
    omega
  have e1 := @FileM.read_write_above
    (((file.setLen O).write O b).write (O + b.length) ser) 0 p n hb2
    (by omega) (by omega)
  have e2 := @FileM.read_write_below ((file.setLen O).write O b)
    (O + b.length) p n ser (by omega) (by omega)
  have e3 := @FileM.read_write_below (file.setLen O) O p n b
    (by omega) (by omega)
  have e4 := @FileM.read_setLen file O p n (by omega) (by omega)
  rw [e1, e2, e3, e4, hold]

lemma append_read_new (file : FileM) (O : Nat) (b ser hb2 : List Nat)
    (hhb : hb2.length ≤ O) :
    ((((file.setLen O).write O b).write (O + b.length) ser).write 0 hb2).read
      O b.length = .ok b := by
  have hsz3 : (((file.setLen O).write O b).write (O + b.length) ser).size =
      O + b.length + ser.length := by
    simp only [FileM.size_write, FileM.size_setLen]
    omega
  have hsz2 : ((file.setLen O).write O b).size = O + b.length := by
    simp only [FileM.size_write, FileM.size_setLen]
    omega
  have e1 := @FileM.read_write_above
    (((file.setLen O).write O b).write (O + b.length) ser) 0 O b.length hb2
    (by omega) (by omega)
  have e2 := @FileM.read_write_below ((file.setLen O).write O b)
    (O + b.length) O b.length ser (by omega) (by omega)
  rw [e1, e2]
  exact FileM.read_write_exact (file.setLen O) O b

lemma create_inv : ArchiveInv SaveArchive.create [] := by
  refine ⟨rfl, rfl, rfl, rfl, rfl, rfl, rfl, Or.inl ⟨rfl, rfl⟩, rfl, ?_, ?_, ?_⟩
  · have h := FileM.read_write_exact
      (FileM.empty.setLen createHeader.index_offset) 0
      (headerBytes createHeader)
    rw [headerBytes_length rfl] at h
    exact h
  · intro i hi
    exact absurd hi (by simp)
  · show createHeader.index_offset + createHeader.index_size < U64_BOUND
    decide

lemma append_inv {a : SaveArchive} {imgs : List (List Nat)} (b : List Nat)
    (hInv : ArchiveInv a imgs)
    (hb : baseOffset + totalLen imgs + b.length + 8 + 16 * (imgs.length + 1) <
      U64_BOUND) :
    ArchiveInv (a.append_image b).2 (imgs ++ [b]) := by
  obtain ⟨file, hdr, idx⟩ := a
  unfold ArchiveInv at hInv ⊢
  obtain ⟨h1, h2, h3, h4, h5, h6, h7, h8, h9, h10, h11, h12⟩ := hInv
  obtain ⟨mg, ver, rs, gs, ro, io, is⟩ := hdr
  dsimp only at h1 h2 h3 h4 h5 h6 h7 h8 h9 h10 h11 h12
  subst h1 h2 h3 h4 h5 h6 h7
  rw [append_image_eq]
  dsimp only
  have hserlen : (serializeIndex (indexFrom baseOffset imgs ++
      [(baseOffset + totalLen imgs, b.length)])).length =
      8 + 16 * (imgs.length + 1) := by
    rw [serializeIndex_length, List.length_append, indexFrom_length,
      List.length_singleton]
  have hhblen : (headerBytes
      { magic := MAGIC, version := 1,
        game_data_region_size := DEFAULT_GAME_DATA_SIZE,
        game_data_size := 0, game_data_region_offset := HEADER_SIZE,
        index_offset := baseOffset + totalLen imgs + b.length,
        index_size := (serializeIndex (indexFrom baseOffset imgs ++
          [(baseOffset + totalLen imgs, b.length)])).length }).length =
      HEADER_SIZE := headerBytes_length rfl
  have h56 : HEADER_SIZE ≤ baseOffset + totalLen imgs :=
    le_trans hs_le_base (Nat.le_add_right _ _)
  refine ⟨rfl, rfl, rfl, rfl, rfl, ?_, ?_, ?_, ?_, ?_, ?_, ?_⟩
  · rw [totalLen_append, totalLen_cons, totalLen_nil]
    omega
  · rw [indexFrom_append]
  · refine Or.inr ⟨?_, rfl, ?_⟩
    · rw [hserlen]
      omega
    · exact append_read_index file (baseOffset + totalLen imgs) b
        (serializeIndex (indexFrom baseOffset imgs ++
          [(baseOffset + totalLen imgs, b.length)]))
        (headerBytes
          { magic := MAGIC, version := 1,
            game_data_region_size := DEFAULT_GAME_DATA_SIZE,
            game_data_size := 0, game_data_region_offset := HEADER_SIZE,
            index_offset := baseOffset + totalLen imgs + b.length,
            index_size := (serializeIndex (indexFrom baseOffset imgs ++
              [(baseOffset + totalLen imgs, b.length)])).length })
        (by rw [hhblen]; exact h56)
  · show (FileM.write _ 0 _).size = _
    rw [FileM.size_write]
    have hsz3 : (((file.setLen (baseOffset + totalLen imgs)).write
        (baseOffset + totalLen imgs) b).write
        (baseOffset + totalLen imgs + b.length)
        (serializeIndex (indexFrom baseOffset imgs ++
          [(baseOffset + totalLen imgs, b.length)]))).size =
        baseOffset + totalLen imgs + b.length +
          (serializeIndex (indexFrom baseOffset imgs ++
            [(baseOffset + totalLen imgs, b.length)])).length := by
      simp only [FileM.size_write, FileM.size_setLen]
      omega
    rw [hsz3, hhblen]
    omega
  · have h := FileM.read_write_exact
      (((file.setLen (baseOffset + totalLen imgs)).write
        (baseOffset + totalLen imgs) b).write
        (baseOffset + totalLen imgs + b.length)
        (serializeIndex (indexFrom baseOffset imgs ++
          [(baseOffset + totalLen imgs, b.length)]))) 0
      (headerBytes
        { magic := MAGIC, version := 1,
          game_data_region_size := DEFAULT_GAME_DATA_SIZE,
          game_data_size := 0, game_data_region_offset := HEADER_SIZE,
          index_offset := baseOffset + totalLen imgs + b.length,
          index_size := (serializeIndex (indexFrom baseOffset imgs ++
            [(baseOffset + totalLen imgs, b.length)])).length })
    rw [hhblen] at h
    exact h
  · intro i hi
    rw [List.length_append, List.length_singleton] at hi
    rcases lt_or_ge i imgs.length with hlt | hge
    · rw [List.take_append_of_le_length (le_of_lt hlt)]
      have hgd : (imgs ++ [b]).getD i [] = imgs.getD i [] := by
        simp only [List.getD_eq_getElem?_getD]
        rw [List.getElem?_append_left hlt]
      rw [hgd]
      exact append_read_old file (baseOffset + totalLen imgs)
        (baseOffset + totalLen (imgs.take i)) (imgs.getD i []).length b _ _ _
        (by have := totalLen_take_succ hlt
            have := totalLen_take_le imgs (i + 1)
            omega)
        (by rw [hhblen]; exact le_trans hs_le_base (Nat.le_add_right _ _))
        (by rw [h9]; omega)
        (h11 i hlt)
    · have hi' : i = imgs.length := by omega
      subst hi'
      rw [List.take_left]
      have hgd : (imgs ++ [b]).getD imgs.length [] = b := by
        simp only [List.getD_eq_getElem?_getD]
        rw [List.getElem?_append_right (le_refl _)]
        simp
      rw [hgd]
      exact append_read_new file (baseOffset + totalLen imgs) b _ _
        (by rw [hhblen]; exact h56)
  · rw [hserlen]
    omega

lemma open_inv {a : SaveArchive} {imgs : List (List Nat)}
    (hInv : ArchiveInv a imgs) : SaveArchive.open a.file = .ok a := by
  obtain ⟨file, hdr, idx⟩ := a
  unfold ArchiveInv at hInv
  obtain ⟨h1, h2, h3, h4, h5, h6, h7, h8, h9, h10, h11, h12⟩ := hInv
  obtain ⟨mg, ver, rs, gs, ro, io, is⟩ := hdr
  dsimp only at h1 h2 h3 h4 h5 h6 h7 h8 h9 h10 h11 h12 ⊢
  subst h1 h2 h3 h4 h5 h6 h7
  have hparse : parseHeader (headerBytes
      { magic := MAGIC, version := 1,
        game_data_region_size := DEFAULT_GAME_DATA_SIZE, game_data_size := 0,
        game_data_region_offset := HEADER_SIZE,
        index_offset := baseOffset + totalLen imgs, index_size := is }) =
      { magic := MAGIC, version := 1,
        game_data_region_size := DEFAULT_GAME_DATA_SIZE, game_data_size := 0,
        game_data_region_offset := HEADER_SIZE,
        index_offset := baseOffset + totalLen imgs, index_size := is } :=
    parseHeader_headerBytes rfl (by dsimp only; decide) (by dsimp only; decide)
      (by dsimp only; decide) (by dsimp only; decide)
      (by dsimp only; omega) (by dsimp only; omega)
  unfold SaveArchive.open
  rw [h10]
  simp only [bind, Except.bind, hparse]
  rw [if_pos trivial]
  rcases h8 with ⟨hidx0, his0⟩ | ⟨hpos, hlen, hread⟩
  · subst his0
    rw [FileM.read_zero file _ (by omega), hidx0]
    simp
  · rw [hread]
    dsimp only
    rw [if_pos hpos]
    have hpair : ∀ p ∈ indexFrom baseOffset imgs,
        p.1 < U64_BOUND ∧ p.2 < U64_BOUND := by
      intro p hp
      have := indexFrom_bounds imgs baseOffset p hp
      omega
    have hser := serializeIndex_length (indexFrom baseOffset imgs)
    rw [indexFrom_length] at hser
    have hcount : (indexFrom baseOffset imgs).length < U64_BOUND := by
      rw [indexFrom_length]
      omega
    rw [deserializeIndex_serializeIndex _ hpair hcount]

lemma read_image_inv {a : SaveArchive} {imgs : List (List Nat)}
    (hInv : ArchiveInv a imgs) {i : Nat} (hi : i < imgs.length) :
    a.read_image i = .ok (imgs.getD i []) := by
  obtain ⟨_, _, _, _, _, h6, h7, _, _, _, h11, _⟩ := hInv
  unfold SaveArchive.read_image
  rw [h7, indexFrom_get? imgs baseOffset i hi]
  exact h11 i hi

lemma runEvents_inv :
    ∀ (evs : List ArchiveEvent) (a : SaveArchive) (imgs : List (List Nat)),
      ArchiveInv a imgs →
      baseOffset + totalLen (imgs ++ appendsOf evs) + 8 +
        16 * (imgs ++ appendsOf evs).length < U64_BOUND →
      ∃ a', runEvents a evs = .ok a' ∧
        ArchiveInv a' (imgs ++ appendsOf evs) := by
  intro evs
  induction evs with
  | nil =>
    intro a imgs hInv _
    exact ⟨a, rfl, by simpa [appendsOf] using hInv⟩
  | cons ev evs ih =>
    intro a imgs hInv hbd
    cases ev with
    | append b =>
      have hb' : baseOffset + totalLen imgs + b.length + 8 +
          16 * (imgs.length + 1) < U64_BOUND := by
        simp only [appendsOf, totalLen_append, totalLen_cons,
          List.length_append, List.length_cons] at hbd
        have := totalLen_take_le (appendsOf evs) (appendsOf evs).length
        omega
      have hInv' := append_inv b hInv hb'
      have hbd' : baseOffset + totalLen ((imgs ++ [b]) ++ appendsOf evs) + 8 +
          16 * ((imgs ++ [b]) ++ appendsOf evs).length < U64_BOUND := by
        simp only [appendsOf, totalLen_append, totalLen_cons, totalLen_nil,
          List.length_append, List.length_cons, List.length_nil] at hbd ⊢
        omega
      obtain ⟨a', hrun, hinv⟩ := ih (a.append_image b).2 (imgs ++ [b])
        hInv' hbd'
      refine ⟨a', hrun, ?_⟩
      have he : (imgs ++ [b]) ++ appendsOf evs =
          imgs ++ appendsOf (ArchiveEvent.append b :: evs) := by
        simp [appendsOf]
      rw [← he]
      exact hinv
    | reopen =>
      have hopen := open_inv hInv
      have hred : runEvents a (ArchiveEvent.reopen :: evs) =
          runEvents a evs := by
        simp only [runEvents, hopen]
      rw [hred]
      have hbd' : baseOffset + totalLen (imgs ++ appendsOf evs) + 8 +
          16 * (imgs ++ appendsOf evs).length < U64_BOUND := by
        simpa only [appendsOf] using hbd
      simpa only [appendsOf] using ih a imgs hInv hbd'

/-- **C6**: for every history of `append_image` calls starting from a freshly
created archive, possibly interrupted by close/reopen cycles (and with all
u64 header quantities of the history staying below 2^64), the history runs
without error and `read_image i` returns exactly the bytes passed to the i-th
append, for every i below the number of appends. -/
theorem save_archive_append_read (evs : List ArchiveEvent)
    (hsz : sizeOk evs) :
    ∃ a, runEvents SaveArchive.create evs = .ok a ∧
      ∀ i, i < (appendsOf evs).length →
        a.read_image i = .ok ((appendsOf evs).getD i []) := by
  obtain ⟨a, hrun, hinv⟩ := runEvents_inv evs SaveArchive.create [] create_inv
    (by simpa [sizeOk] using hsz)
  exact ⟨a, hrun, fun i hi => read_image_inv (by simpa using hinv) hi⟩

/-- Witness for `save_archive_append_read`: two appends separated by a
close/reopen cycle. -/
theorem save_archive_append_read_witness :
    sizeOk [ArchiveEvent.append [1, 2], ArchiveEvent.reopen,
        ArchiveEvent.append [3]] ∧
    ∃ a, runEvents SaveArchive.create
        [ArchiveEvent.append [1, 2], ArchiveEvent.reopen,
          ArchiveEvent.append [3]] = .ok a ∧
      ∀ i, i < (appendsOf [ArchiveEvent.append [1, 2], ArchiveEvent.reopen,
          ArchiveEvent.append [3]]).length →
        a.read_image i = .ok ((appendsOf [ArchiveEvent.append [1, 2],
          ArchiveEvent.reopen, ArchiveEvent.append [3]]).getD i []) :=
  ⟨by unfold sizeOk; decide,
   save_archive_append_read _ (by unfold sizeOk; decide)⟩

/-- **C7**: `write_game_data` succeeds exactly when the serialized length is
strictly below the region size; on failure the archive is returned unchanged,
and on success `game_data_size` is set to the serialized length while the
region size is untouched. -/
theorem write_game_data_spec (a : SaveArchive) (bs : List Nat) :
    ((a.write_game_data bs).1.isOk = true ↔
      bs.length < a.header.game_data_region_size) ∧
    (a.header.game_data_region_size ≤ bs.length →
      (a.write_game_data bs).2 = a) ∧
    (bs.length < a.header.game_data_region_size →
      (a.write_game_data bs).1 = .ok () ∧
      (a.write_game_data bs).2.header.game_data_size = bs.length ∧
      (a.write_game_data bs).2.header.game_data_region_size =
        a.header.game_data_region_size) := by
  unfold SaveArchive.write_game_data
  rcases lt_or_ge bs.length a.header.game_data_region_size with h | h
  · rw [if_pos h]
    refine ⟨by simp [Except.isOk, Except.toBool, h], ?_, ?_⟩
    · intro h'
      omega
    · intro _
      exact ⟨rfl, rfl, rfl⟩
  · rw [if_neg (not_lt.mpr h)]
    refine ⟨?_, ?_, ?_⟩
    · simp only [Except.isOk, Except.toBool]
      constructor
      · intro h'
        exact absurd h' (by simp)
      · intro h'
        omega
    · intro _
      rfl
    · intro h'
      omega

/-- Witness for `write_game_data_spec`: writing one byte into a fresh
archive succeeds and records length 1. -/
theorem write_game_data_spec_witness :
    [(65 : Nat)].length < SaveArchive.create.header.game_data_region_size ∧
    ((SaveArchive.create.write_game_data [65]).1 = .ok () ∧
      (SaveArchive.create.write_game_data [65]).2.header.game_data_size =
        [(65 : Nat)].length ∧
      (SaveArchive.create.write_game_data
          [65]).2.header.game_data_region_size =
        SaveArchive.create.header.game_data_region_size) :=
  ⟨by decide,
   (write_game_data_spec SaveArchive.create [65]).2.2 (by decide)⟩

/-- The claim says `write_game_data` fails only when the data *exceeds* the
region size; the code also rejects data exactly filling the region (strict
`<` in the `ensure!`). -/
theorem c7_counterexample :
    ¬ SaveArchive.create.header.game_data_region_size <
        (List.replicate DEFAULT_GAME_DATA_SIZE 0).length ∧
    (SaveArchive.create.write_game_data
        (List.replicate DEFAULT_GAME_DATA_SIZE 0)).1.isOk = false := by
  constructor
  · rw [List.length_replicate]
    exact lt_irrefl _
  · unfold SaveArchive.write_game_data
    rw [if_neg (by rw [List.length_replicate]; exact lt_irrefl _)]
    rfl

/-- **C8**: `append_image` returns `()` (Rust `Result<()>`), not the assigned
image id the spec promises; the new index entry is nonetheless appended at
position `image_index.length`, and ids at or beyond the index length fail
with "Image ID not found". -/
theorem append_image_no_id (a : SaveArchive) (bs : List Nat) :
    (a.append_image bs).1 = () ∧
    (a.append_image bs).2.image_index =
      a.image_index ++ [(a.header.index_offset, bs.length)] ∧
    (∀ i, (a.append_image bs).2.image_index.length ≤ i →
      (a.append_image bs).2.read_image i =
        .error "Image ID not found".toList) := by
  refine ⟨rfl, rfl, ?_⟩
  intro i hi
  unfold SaveArchive.read_image
  rw [List.get?_eq_none.mpr hi]

/-- Witness for `append_image_no_id`: one append on a fresh archive, then an
out-of-range read. -/
theorem append_image_no_id_witness :
    (SaveArchive.create.append_image [0, 1, 2]).2.image_index.length ≤ 5 ∧
    (SaveArchive.create.append_image [0, 1, 2]).2.read_image 5 =
      .error "Image ID not found".toList :=
  ⟨by decide,
   (append_image_no_id SaveArchive.create [0, 1, 2]).2.2 5 (by decide)⟩

end WW

-- sanity checks against the Rust unit test `test_stop_token_detection`
example :
    (WW.StreamFinder.process (WW.StreamFinder.new "User:".toList)
      "A User is an idiot".toList).1 =
    WW.MatchResult.CheckedOutput "A User is an idiot".toList := by decide

example :
    ((WW.StreamFinder.new "User:".toList).process "A User".toList).1 =
    WW.MatchResult.CheckedOutput "A ".toList := by decide

example :
    (((WW.StreamFinder.new "User:".toList).process "A User".toList).2.process
      " is".toList).1 = WW.MatchResult.CheckedOutput "User is".toList := by
  decide

example :
    ((((WW.StreamFinder.new "User:".toList).process "A User".toList).2.process
      " is".toList).2.process "A User: is an".toList).1 =
    WW.MatchResult.StopTokenMatched "A ".toList " is an".toList := by decide
